import Mathlib

/-!
Verification development for the book-source rule-parsing engine
(selectors, fallback `||`, concatenation `&&`, regex cleanup `##`,
engine facades and the result cache).

Text is modelled as `List Char` (written `JStr`); JavaScript values as the
inductive `JSValue`; evaluation results as the `Outcome` structure mirroring
the engine's ParseResult records.  A sub-evaluation that may not terminate is
modelled with `Option` (`none` = divergence); a JavaScript `throw` is modelled
with `Except` (`.error msg`).

Several character scanners take an explicit `fuel : Nat` argument so that the
definitions compute by kernel reduction; every step of each scanner consumes
at least one character, so the wrappers' instantiation `fuel := length + 1`
never runs out.
-/

set_option maxHeartbeats 1000000

/-- Rule / value text, modelled as a list of characters. -/
abbrev JStr := List Char

/-- Convert a Lean string literal to the `JStr` representation. -/
def str (s : String) : JStr := s.data

/-- The whitespace class used by JavaScript `trim` / `\s` (ASCII part). -/
def isSpaceJS (c : Char) : Bool :=
  c = ' ' || c = '\t' || c = '\n' || c = '\r' || c = '\x0b' || c = '\x0c'

/-- Strip leading whitespace (JavaScript `replace(/^\s+/, "")`). -/
def dropLeadingWS (s : JStr) : JStr := s.dropWhile isSpaceJS

/-- Strip trailing whitespace. -/
def dropTrailingWS (s : JStr) : JStr := (s.reverse.dropWhile isSpaceJS).reverse

/-- JavaScript `String.prototype.trim`. -/
def jsTrim (s : JStr) : JStr := dropTrailingWS (dropLeadingWS s)

/-- JavaScript `String.prototype.startsWith`. -/
def jsStartsWith (p s : JStr) : Bool := p.isPrefixOf s

/-- Does the string end with a whitespace character (JavaScript `/\s+$/.test`)? -/
def endsWithWS (s : JStr) : Bool :=
  match s.getLast? with
  | some c => isSpaceJS c
  | none => false

/-- JavaScript `String.prototype.includes` (substring containment). -/
def jsIncludes (s pat : JStr) : Bool :=
  match s with
  | [] => pat.isEmpty
  | _ :: t => pat.isPrefixOf s || jsIncludes t pat

/-- Fuelled worker for `jsSplit`. -/
def jsSplitGo (pat : JStr) : Nat → JStr → JStr → List JStr
  | 0, s, cur => [cur.reverse ++ s]
  | _ + 1, [], cur => [cur.reverse]
  | fuel + 1, c :: t, cur =>
    if pat.isPrefixOf (c :: t) then
      cur.reverse :: jsSplitGo pat fuel (List.drop (pat.length - 1) t) []
    else
      jsSplitGo pat fuel t (c :: cur)

/-- JavaScript `String.prototype.split` on a non-empty literal separator. -/
def jsSplit (pat : JStr) (s : JStr) : List JStr :=
  jsSplitGo pat (s.length + 1) s []

/-- Fuelled worker for `replaceAllSub`. -/
def replaceGo (pat repl : JStr) : Nat → JStr → JStr
  | 0, s => s
  | _ + 1, [] => []
  | fuel + 1, c :: t =>
    if pat.isPrefixOf (c :: t) then
      repl ++ replaceGo pat repl fuel (List.drop (pat.length - 1) t)
    else
      c :: replaceGo pat repl fuel t

/-- Global replacement of a literal pattern, left to right and
non-overlapping.  This models JavaScript
`text.replace(new RegExp(pattern, flags), replacement)` for pattern strings
without regex metacharacters and whose letters are unaffected by the `i`
flag (e.g. digit patterns), and replacement strings without `$` sequences. -/
def replaceAllSub (pat repl : JStr) (s : JStr) : JStr :=
  if pat.isEmpty then s else replaceGo pat repl (s.length + 1) s

/-- JavaScript `parseInt(s, 10)`: optional sign then a non-empty digit
prefix; `none` models `NaN`. -/
def jsParseInt (s : JStr) : Option Int :=
  let s := dropLeadingWS s
  let (neg, rest) :=
    match s with
    | '-' :: t => (true, t)
    | '+' :: t => (false, t)
    | t => (false, t)
  let digits := rest.takeWhile Char.isDigit
  if digits.isEmpty then none
  else
    let n : Nat := digits.foldl (fun acc c => acc * 10 + (c.toNat - 48)) 0
    some (if neg then -(n : Int) else (n : Int))

/-- JavaScript runtime values (null/undefined collapsed to `vNull`). -/
inductive JSValue where
  | vNull
  | vBool (b : Bool)
  | vNum (n : Int)
  | vStr (s : JStr)
  | vArr (elems : List JSValue)
  | vObj (fields : List (JStr × JSValue))

open JSValue

/-- `isEmpty` from types.js: null/undefined, the empty string, an empty
array, or an object with no own keys. -/
def isEmpty : JSValue → Bool
  | vNull => true
  | vStr s => s.isEmpty
  | vArr xs => xs.isEmpty
  | vObj fs => fs.isEmpty
  | vNum _ => false
  | vBool _ => false

/-- JavaScript truthiness of a value. -/
def jsTruthy : JSValue → Bool
  | vNull => false
  | vBool b => b
  | vNum n => n ≠ 0
  | vStr s => ¬s.isEmpty
  | vArr _ => true
  | vObj _ => true

/-- JavaScript `a || b` on values (used for `lastResult.data || null`). -/
def jsOr (a b : JSValue) : JSValue := if jsTruthy a then a else b

mutual
/-- JavaScript `String(v)` coercion. -/
def jsStringOf : JSValue → JStr
  | vNull => str "null"
  | vBool true => str "true"
  | vBool false => str "false"
  | vNum n => (toString n).data
  | vStr s => s
  | vArr xs => jsArrComma xs
  | vObj _ => str "[object Object]"

/-- Array elements joined by `,` as in JavaScript `Array.prototype.toString`. -/
def jsArrComma : List JSValue → JStr
  | [] => []
  | [x] => jsArrElem x
  | x :: y :: t => jsArrElem x ++ ',' :: jsArrComma (y :: t)

/-- A single array element under `join`: null/undefined render as empty. -/
def jsArrElem : JSValue → JStr
  | vNull => []
  | vBool true => str "true"
  | vBool false => str "false"
  | vNum n => (toString n).data
  | vStr s => s
  | vArr xs => jsArrComma xs
  | vObj _ => str "[object Object]"
end

/-- JavaScript `Array.prototype.join(sep)`. -/
def jsArrJoin (sep : JStr) (xs : List JSValue) : JStr :=
  List.intercalate sep (xs.map jsArrElem)

/-- Escapes inside a JSON string literal (quote, backslash, common controls). -/
def jsonEscape (s : JStr) : JStr :=
  (s.map fun c =>
    if c = '"' then ['\\', '"']
    else if c = '\\' then ['\\', '\\']
    else if c = '\n' then ['\\', 'n']
    else if c = '\t' then ['\\', 't']
    else if c = '\r' then ['\\', 'r']
    else [c]).flatten

mutual
/-- `JSON.stringify` (for the value shapes reachable in this model). -/
def jsonStringify : JSValue → JStr
  | vNull => str "null"
  | vBool true => str "true"
  | vBool false => str "false"
  | vNum n => (toString n).data
  | vStr s => '"' :: jsonEscape s ++ ['"']
  | vArr xs => '[' :: jsonArrBody xs ++ [']']
  | vObj fs => '{' :: jsonObjBody fs ++ ['}']

/-- Comma-separated serialization of array elements. -/
def jsonArrBody : List JSValue → JStr
  | [] => []
  | [x] => jsonStringify x
  | x :: y :: t => jsonStringify x ++ ',' :: jsonArrBody (y :: t)

/-- Comma-separated serialization of object fields. -/
def jsonObjBody : List (JStr × JSValue) → JStr
  | [] => []
  | [(k, v)] => '"' :: jsonEscape k ++ '"' :: ':' :: jsonStringify v
  | (k, v) :: f :: t =>
    '"' :: jsonEscape k ++ '"' :: ':' :: jsonStringify v ++ ',' :: jsonObjBody (f :: t)
end

/-- The uniform result record (`ParseResult`) produced by every evaluator.
Fields that a given evaluator does not set keep their defaults. -/
structure Outcome where
  success : Bool
  data : JSValue
  rule : JStr
  selector : JStr
  error : Option JStr := none
  usedRule : Option JStr := none
  fallbackIndex : Option Nat := none
  errors : List (Nat × JStr × JStr) := []
  processedCount : Option Nat := none
  appliedCount : Option Nat := none
  originalData : Option JSValue := none
  fromCache : Bool := false

/-! ### Quote-aware tokenization (operators/concat.js, operators/fallback.js) -/

/-- Scan the body of a quoted literal per the regex fragment
`([^q\\]|\\.)*q` (the opening quote already consumed): returns the consumed
body (including the closing quote) and the remainder, or `none` when the
literal never closes (in which case the regex alternative fails and the
opening quote is treated as an ordinary character).  `\\.` does not match a
line terminator, hence the newline check. -/
def scanQuoted (q : Char) : JStr → Option (JStr × JStr)
  | [] => none
  | c :: t =>
    if c = q then some ([c], t)
    else if c = '\\' then
      match t with
      | [] => none
      | d :: t2 =>
        if d = '\n' ∨ d = '\r' then none
        else (scanQuoted q t2).map fun (b, r) => (c :: d :: b, r)
    else
      (scanQuoted q t).map fun (b, r) => (c :: b, r)

/-- Phase one of `parseConcatRule` (fuelled): the legality scan over
`/"([^"\\]|\\.)*"|'([^'\\]|\\.)*'|&&/g`.  `pre` counts the spaces
immediately before the scan position; returns `true` when some bare `&&` has
no space on a side, or two-or-more spaces on both sides. -/
def hasIllegalAmpGo : Nat → Nat → JStr → Bool
  | 0, _, _ => false
  | _ + 1, _, [] => false
  | fuel + 1, pre, c :: t =>
    if c = '"' ∨ c = '\'' then
      match scanQuoted c t with
      | some (_, rest) => hasIllegalAmpGo fuel 0 rest
      | none => hasIllegalAmpGo fuel 0 t
    else
      match c, t with
      | '&', '&' :: t2 =>
        let right := (t2.takeWhile (· = ' ')).length
        if pre = 0 ∨ right = 0 ∨ (2 ≤ pre ∧ 2 ≤ right) then true
        else hasIllegalAmpGo fuel 0 t2
      | ' ', _ => hasIllegalAmpGo fuel (pre + 1) t
      | _, _ => hasIllegalAmpGo fuel 0 t

/-- Is there an illegally spaced bare (unquoted) `&&` in the rule string? -/
def hasIllegalAmp (s : JStr) : Bool := hasIllegalAmpGo (s.length + 1) 0 s

/-- Phase two of `parseConcatRule` (fuelled): split on the exact token
`" && "` outside quoted literals, per
`/"([^"\\]|\\.)*"|'([^'\\]|\\.)*'| && /g`.  Returns the `hasDelimiter` flag
and the raw (un-trimmed) segments. -/
def splitConcatGo : Nat → JStr → JStr → Bool × List JStr
  | 0, s, cur => (false, [cur.reverse ++ s])
  | _ + 1, [], cur => (false, [cur.reverse])
  | fuel + 1, c :: t, cur =>
    if c = '"' ∨ c = '\'' then
      match scanQuoted c t with
      | some (b, rest) => splitConcatGo fuel rest (b.reverse ++ c :: cur)
      | none => splitConcatGo fuel t (c :: cur)
    else
      match c, t with
      | ' ', '&' :: '&' :: ' ' :: t3 =>
        (true, cur.reverse :: (splitConcatGo fuel t3 []).2)
      | _, _ => splitConcatGo fuel t (c :: cur)

/-- The raw `" && "` split of a rule string: delimiter-found flag and the raw
segments. -/
def splitConcatRaw (s : JStr) : Bool × List JStr := splitConcatGo (s.length + 1) s []

/-- `pushSegment` from `parseConcatRule`: trim the segment, except that a
segment whose trimmed form starts with `@text:` and whose raw form has
trailing whitespace only loses its leading whitespace. -/
def pushSegment (seg : JStr) : JStr :=
  let trimmed := jsTrim seg
  if jsStartsWith (str "@text:") trimmed ∧ seg ≠ trimmed ∧ endsWithWS seg then
    dropLeadingWS seg
  else
    trimmed

/-- `parseConcatRule` from operators/concat.js: legality scan, quote-aware
split on `" && "`, per-segment post-processing, empty-segment check. -/
def parseConcatRule (s : JStr) : Except JStr (List JStr) :=
  if hasIllegalAmp s then
    .error (str "非法操作符 && ：必须使用单个空格包裹的 && ")
  else
    let res := splitConcatRaw s
    let rules := res.2.map pushSegment
    if res.1 ∧ rules.any List.isEmpty then
      .error (str "语法错误：拼接符 && 两侧不能为空")
    else
      .ok rules

/-- `parseFallbackRule` from operators/fallback.js: split on `||` outside
single- or double-quoted substrings (no escape handling), trimming each
piece; delimiter-separated pieces are pushed even when empty, the final piece
only when non-empty. -/
def parseFallbackRuleSplit (s : JStr) : List JStr :=
  go (s.length + 1) s [] false ' '
where
  go : Nat → JStr → JStr → Bool → Char → List JStr
    | 0, s, cur, _, _ =>
      if (jsTrim (cur.reverse ++ s)).isEmpty then [] else [jsTrim (cur.reverse ++ s)]
    | _ + 1, [], cur, _, _ =>
      if (jsTrim cur.reverse).isEmpty then [] else [jsTrim cur.reverse]
    | fuel + 1, c :: t, cur, inStr, sc =>
      if ¬inStr ∧ (c = '"' ∨ c = '\'') then go fuel t (c :: cur) true c
      else if inStr ∧ c = sc then go fuel t (c :: cur) false sc
      else
        match c, t, inStr with
        | '|', '|' :: t2, false => jsTrim cur.reverse :: go fuel t2 [] false sc
        | _, _, _ => go fuel t (c :: cur) inStr sc

/-! ### Text selectors (selectors/text.js) -/

/-- `textSelector`: outputs the given text literally; `none` models a
null/undefined text argument. -/
def textSelector (text : Option JStr) : Outcome :=
  match text with
  | none =>
    { success := false, data := vNull, rule := str "null", selector := str "text" }
  | some t =>
    { success := true, data := vStr t, rule := t, selector := str "text" }

/-- The escape-processing chain of `quotedTextSelector`: sequential literal
replaces `\" → "`, `\' → '`, `\\ → \`, `\n`, `\t`, `\r`. -/
def unescapeQuoted (s : JStr) : JStr :=
  let s := replaceAllSub ['\\', '"'] ['"'] s
  let s := replaceAllSub ['\\', '\''] ['\''] s
  let s := replaceAllSub ['\\', '\\'] ['\\'] s
  let s := replaceAllSub ['\\', 'n'] ['\n'] s
  let s := replaceAllSub ['\\', 't'] ['\t'] s
  replaceAllSub ['\\', 'r'] ['\r'] s

/-- `quotedTextSelector`: strips a surrounding pair of single or double
quotes and processes escapes. -/
def quotedTextSelector (quotedText : JStr) : Outcome :=
  let t :=
    if (quotedText.head? = some '"' ∧ quotedText.getLast? = some '"') ∨
        (quotedText.head? = some '\'' ∧ quotedText.getLast? = some '\'') then
      (quotedText.drop 1).dropLast
    else quotedText
  { success := true, data := vStr (unescapeQuoted t), rule := quotedText,
    selector := str "text" }

/-! ### Fallback operator (operators/fallback.js) -/

/-- A selector entry handed to an operator: its rule text and the
(pre-determined, deterministic) result of `execute`.  `exec = none` models a
sub-evaluation that never returns; `some (.error e)` a thrown error. -/
structure SelM where
  rule : JStr
  exec : Option (Except JStr Outcome)

/-- `selector.rule || 'unknown'`. -/
def selRuleOr (s : SelM) : JStr := if s.rule.isEmpty then str "unknown" else s.rule

/-- Did this selector produce a successful, non-empty result? -/
def isHit (s : SelM) : Bool :=
  match s.exec with
  | some (.ok r) => r.success && !isEmpty r.data
  | _ => false

/-- The composite error message of the all-failed branch:
`所有选择器都失败: [i] rule: err; ...`. -/
def compositeErr (errs : List (Nat × JStr × JStr)) : JStr :=
  str "所有选择器都失败: " ++
    List.intercalate (str "; ")
      (errs.map fun e => '[' :: (toString e.1).data ++ ']' :: ' ' :: e.2.1 ++ ':' :: ' ' :: e.2.2)

/-- The loop of `fallbackOperator`, instrumented with the list of indices at
which `selector.execute` is invoked (in order; the final fallback re-executes
the last selector).  `all` is the full selector list, `rem` the selectors not
yet tried, `i` the current index, `errs`/`rulesAcc` the accumulated
diagnostics and rule texts. -/
def fbLoop (all : List SelM) :
    List SelM → Nat → List (Nat × JStr × JStr) → List JStr → List Nat →
    Option (Outcome × List Nat)
  | [], _, errs, rulesAcc, trace =>
    match all.getLast? with
    | none =>
      some ({ success := false, data := vNull,
              rule := List.intercalate (str " || ") rulesAcc,
              selector := str "fallback",
              error := some (str "所有选择器都失败，最后兜底也失败: Cannot read properties of undefined") },
            trace)
    | some lastSel =>
      match lastSel.exec with
      | none => none
      | some (.ok lastResult) =>
        some ({ success := false, data := jsOr lastResult.data vNull,
                rule := List.intercalate (str " || ") rulesAcc,
                selector := str "fallback",
                error := some (compositeErr errs),
                usedRule := some (selRuleOr lastSel),
                fallbackIndex := some (all.length - 1) },
              trace ++ [all.length - 1])
      | some (.error e) =>
        some ({ success := false, data := vNull,
                rule := List.intercalate (str " || ") rulesAcc,
                selector := str "fallback",
                error := some (str "所有选择器都失败，最后兜底也失败: " ++ e) },
              trace ++ [all.length - 1])
  | sel :: rest, i, errs, rulesAcc, trace =>
    let rulesAcc := rulesAcc ++ [selRuleOr sel]
    match sel.exec with
    | none => none
    | some (.ok r) =>
      if r.success && !isEmpty r.data then
        some ({ success := true, data := r.data,
                rule := List.intercalate (str " || ") rulesAcc,
                selector := str "fallback",
                usedRule := some (selRuleOr sel),
                fallbackIndex := some i },
              trace ++ [i])
      else
        fbLoop all rest (i + 1) (errs ++ [(i, selRuleOr sel, str "empty result")])
          rulesAcc (trace ++ [i])
    | some (.error e) =>
      fbLoop all rest (i + 1) (errs ++ [(i, selRuleOr sel, e)]) rulesAcc (trace ++ [i])

/-- `fallbackOperator` from operators/fallback.js, instrumented with the
evaluation trace.  Returns `none` when an executed sub-evaluation diverges. -/
def fallbackOperator (selectors : List SelM) : Option (Outcome × List Nat) :=
  fbLoop selectors selectors 0 [] [] []

/-! ### Concatenation operator (operators/concat.js) -/

/-- `processDataForConcat`: stringification of a sub-result for joining.
Strings (and stringified array heads / primitives) from the `text` selector
keep their spacing, all others are trimmed; objects are JSON-serialized. -/
def processDataForConcat (data : JSValue) (result : Outcome) : JStr :=
  match data with
  | vNull => []
  | vStr s => if result.selector = str "text" then s else jsTrim s
  | vArr [] => []
  | vArr (x :: _) =>
    let firstElement := jsStringOf x
    if result.selector = str "text" then firstElement else jsTrim firstElement
  | vObj fs => jsonStringify (vObj fs)
  | v =>
    let stringData := jsStringOf v
    if result.selector = str "text" then stringData else jsTrim stringData

/-- The loop of `concatOperator`: returns the collected stringified results,
the diagnostics, and the rule texts; `none` when a sub-evaluation diverges. -/
def ccLoop (ignoreEmpty : Bool) :
    List SelM → Nat → Option (List JStr × List (Nat × JStr × JStr) × List JStr)
  | [], _ => some ([], [], [])
  | sel :: rest, i =>
    match sel.exec with
    | none => none
    | some (.ok r) =>
      (ccLoop ignoreEmpty rest (i + 1)).map fun (rs, es, rls) =>
        if r.success && !isEmpty r.data then
          (processDataForConcat r.data r :: rs, es, selRuleOr sel :: rls)
        else if ¬ignoreEmpty then
          ([] :: rs, (i, selRuleOr sel, str "empty result") :: es, selRuleOr sel :: rls)
        else
          (rs, (i, selRuleOr sel, str "empty result (ignored)") :: es, selRuleOr sel :: rls)
    | some (.error e) =>
      (ccLoop ignoreEmpty rest (i + 1)).map fun (rs, es, rls) =>
        ((if ignoreEmpty then rs else [] :: rs), (i, selRuleOr sel, e) :: es,
          selRuleOr sel :: rls)

/-- `concatOperator` from operators/concat.js (options `separator`,
`ignoreEmpty`; the engines always use the defaults `""` and `true`). -/
def concatOperator (separator : JStr) (ignoreEmpty : Bool) (selectors : List SelM) :
    Option Outcome :=
  (ccLoop ignoreEmpty selectors 0).map fun (results, errs, rls) =>
    let finalResult := List.intercalate separator results
    { success := !isEmpty (vStr finalResult), data := vStr finalResult,
      rule := List.intercalate (str " && ") rls,
      selector := str "concat", errors := errs,
      processedCount := some results.length }

/-! ### Regex cleanup operators (operators/regex-clean.js)

The actual `RegExp` replacement engine is an external collaborator; the
functions below are parameterized by `rep : pattern → replacement → text →
text`, modelling `text.replace(new RegExp(pattern, flags), replacement)`
(`gi` by default).  Concrete instances use `replaceAllSub`. -/

/-- The replacement primitive abstracting JavaScript `RegExp` replace. -/
abbrev RepFn := JStr → JStr → JStr → JStr

/-- `convertToString` from regex-clean.js. -/
def convertToString : JSValue → JStr
  | vStr s => s
  | vArr xs => jsArrJoin (str " ") xs
  | vNull => []
  | v => jsStringOf v

/-- `cleanText`: stringify the input, return it unchanged when empty,
otherwise apply the replacement. -/
def cleanText (rep : RepFn) (input : JSValue) (pattern replacement : JStr) : JStr :=
  let text := convertToString input
  if text.isEmpty then text else rep pattern replacement text

/-- `regexCleanOperator`: one `##pattern##replacement` step. -/
def regexCleanOperator (rep : RepFn) (input : JSValue) (pattern replacement : JStr) :
    Outcome :=
  let result := cleanText rep input pattern replacement
  { success := !result.isEmpty, data := vStr result,
    rule := '#' :: '#' :: pattern ++ '#' :: '#' :: replacement,
    selector := str "regex-clean" }

/-- No line terminators in the string (regex `.` does not match them). -/
def nlFree (s : JStr) : Bool := s.all fun c => !(c == '\n' || c == '\r')

/-- Worker for `parseCleanRuleStr` (fuelled): after the leading `##`, the
lazy group `(.+?)` grows (never across a line terminator) until `##` follows
with a newline-free remainder for `(.*)$`. -/
def pcrGo : Nat → JStr → JStr → Option (JStr × JStr)
  | 0, _, _ => none
  | fuel + 1, accRev, rem =>
    if ['#', '#'].isPrefixOf rem ∧ nlFree (rem.drop 2) then
      some (accRev.reverse, rem.drop 2)
    else
      match rem with
      | [] => none
      | c :: t => if c = '\n' ∨ c = '\r' then none else pcrGo fuel (c :: accRev) t

/-- `parseCleanRule` from regex-clean.js: match `^##(.+?)##(.*)$` and return
the pattern / replacement pair. -/
def parseCleanRuleStr (ruleString : JStr) : Except JStr (JStr × JStr) :=
  match ruleString with
  | '#' :: '#' :: c :: t =>
    if c = '\n' ∨ c = '\r' then
      .error (str "无效的净化规则格式: " ++ ruleString)
    else
      match pcrGo (t.length + 1) [c] t with
      | some pr => .ok pr
      | none => .error (str "无效的净化规则格式: " ++ ruleString)
  | _ => .error (str "无效的净化规则格式: " ++ ruleString)

/-- `batchRegexCleanOperator` for rule pairs (as built by the engine's
cleanup handler): sequential application of each `pattern → replacement`
step, each on the previous step's output; always reports success. -/
def batchRegexCleanOperator (rep : RepFn) (input : JSValue)
    (cleanRules : List (JStr × JStr)) : Outcome :=
  let result := cleanRules.foldl (fun acc pr => cleanText rep (vStr acc) pr.1 pr.2)
    (convertToString input)
  { success := true, data := vStr result,
    rule := List.intercalate (str " | ")
      (cleanRules.map fun pr => '#' :: '#' :: pr.1 ++ '#' :: '#' :: pr.2),
    selector := str "batch-regex-clean",
    appliedCount := some cleanRules.length }

/-! ### RuleEngine (rule-engine.js)

The structural selector adapters (cheerio CSS, JSON path, regex, JS sandbox)
are external collaborators (spec §6); the engine model is parameterized over
them by `REnv`.  `parseRule` re-enters itself on fallback / concatenation
sub-rules, so the model takes a fuel argument: `none` models an evaluation
that never returns. -/

/-- External selector adapters for the RuleEngine, plus the `RegExp`
replacement primitive used by the cleanup operator.  Adapters receive
(source, expression, context). -/
structure REnv where
  css : JSValue → JStr → JSValue → Except JStr Outcome
  cssContains : JSValue → JStr → JSValue → Except JStr Outcome
  json : JSValue → JStr → JSValue → Except JStr Outcome
  regex : JSValue → JStr → JSValue → Except JStr Outcome
  js : JSValue → JStr → JSValue → Except JStr Outcome
  rep : RepFn

/-- RuleEngine options (the fields the modelled paths read). -/
structure EngOptions where
  enableJS : Bool := true

/-- `RuleEngine.parseSingleSelector`: prefix dispatch; `@text:` rules are not
pre-trimmed so that their literal spacing survives. -/
def parseSingleSelector (env : REnv) (opts : EngOptions) (src : JSValue)
    (rule : JStr) (ctx : JSValue) : Except JStr Outcome :=
  let isTextSelector := jsStartsWith (str "@text:") (jsTrim rule)
  let workingRule := if isTextSelector then rule else jsTrim rule
  let trimmedRule := jsTrim workingRule
  if jsStartsWith (str "@css:") trimmedRule then
    let selector := trimmedRule.drop 5
    if jsIncludes selector (str ":contains(") then env.cssContains src selector ctx
    else env.css src selector ctx
  else if jsStartsWith (str "@XPath:") trimmedRule then
    .ok { success := false, data := vNull, rule := trimmedRule,
          selector := str "xpath",
          error := some (str "XPath selector not implemented in this test") }
  else if jsStartsWith (str "@json:") trimmedRule then
    env.json src (trimmedRule.drop 6) ctx
  else if jsStartsWith (str "@regex:") trimmedRule then
    env.regex src (trimmedRule.drop 7) ctx
  else if jsStartsWith (str "@js:") trimmedRule then
    if ¬opts.enableJS then .error (str "JavaScript 选择器已禁用")
    else env.js src (trimmedRule.drop 4) ctx
  else if jsStartsWith (str "@text:") trimmedRule then
    let text := workingRule.drop 6
    if (text.head? = some '"' ∧ text.getLast? = some '"') ∨
        (text.head? = some '\'' ∧ text.getLast? = some '\'') then
      .ok (quotedTextSelector text)
    else
      .ok (textSelector (some text))
  else if jsIncludes trimmedRule (str ":contains(") then
    env.cssContains src trimmedRule ctx
  else
    env.css src trimmedRule ctx

/-- Selector list built by `RuleEngine.parseFallbackRule` /
`parseConcatRule`: each sub-rule's `execute` re-enters the given evaluator. -/
def engSelsOf (eval : JStr → Option (Except JStr Outcome)) (rules : List JStr) :
    List SelM :=
  rules.map fun r => ⟨r, eval r⟩

/-- `RuleEngine.parseCleanRule`: split on raw `##`, run the selector part,
then apply a single regex-clean step whose pattern is the first `##` chunk
and whose replacement is everything after the second `##`. -/
def reParseCleanRule (env : REnv) (opts : EngOptions) (src : JSValue)
    (rule : JStr) (ctx : JSValue) : Except JStr Outcome :=
  let parts := jsSplit ['#', '#'] rule
  if parts.length < 3 then .error (str "无效的净化规则格式")
  else
    let selectorPart := parts.headD []
    let cleanRule :=
      '#' :: '#' :: (parts.getD 1 []) ++ '#' :: '#' ::
        List.intercalate ['#', '#'] (parts.drop 2)
    match parseSingleSelector env opts src selectorPart ctx with
    | .error e => .error e
    | .ok selectorResult =>
      if ¬selectorResult.success ∨ isEmpty selectorResult.data then
        .ok selectorResult
      else
        match parseCleanRuleStr cleanRule with
        | .error e => .error e
        | .ok pr => .ok (regexCleanOperator env.rep selectorResult.data pr.1 pr.2)

/-- `RuleEngine.parseRule` (fuelled): operator dispatch by substring tests
(`||`, then `&&`, then `##`), recursing into sub-rules through the fallback
and concatenation operators. -/
def parseRuleF : Nat → REnv → EngOptions → JSValue → JStr → JSValue →
    Option (Except JStr Outcome)
  | 0, _, _, _, _, _ => none
  | fuel + 1, env, opts, src, rule, ctx =>
    if rule.isEmpty then some (.error (str "规则不能为空"))
    else if jsIncludes rule (str "||") then
      (fallbackOperator
        (engSelsOf (fun r => parseRuleF fuel env opts src r ctx)
          (parseFallbackRuleSplit rule))).map fun p => .ok p.1
    else if jsIncludes rule (str "&&") then
      match parseConcatRule rule with
      | .error e => some (.error e)
      | .ok rules =>
        (concatOperator [] true
          (engSelsOf (fun r => parseRuleF fuel env opts src r ctx) rules)).map .ok
    else if jsIncludes rule ['#', '#'] then
      some (reParseCleanRule env opts src rule ctx)
    else
      some (parseSingleSelector env opts src rule ctx)

/-- Does `RuleEngine.parseRule` terminate on this input (some fuel
suffices)? -/
def ruleTerminates (env : REnv) (opts : EngOptions) (src : JSValue)
    (rule : JStr) (ctx : JSValue) : Prop :=
  ∃ n, (parseRuleF n env opts src rule ctx).isSome

/-- A trivial adapter environment: every structural adapter reports a
no-match failure; the replacement primitive is the literal one. -/
def envT : REnv where
  css := fun _ e _ => .ok { success := false, data := vNull, rule := e, selector := str "css" }
  cssContains := fun _ e _ =>
    .ok { success := false, data := vNull, rule := e, selector := str "css" }
  json := fun _ e _ => .ok { success := false, data := vNull, rule := e, selector := str "json" }
  regex := fun _ e _ =>
    .ok { success := false, data := vNull, rule := e, selector := str "regex" }
  js := fun _ e _ => .ok { success := false, data := vNull, rule := e, selector := str "js" }
  rep := replaceAllSub


/-! ### BookSourceRuleEngine (engine.js)

The facade engine: selector-kind enum, prefix/index parsing, dispatch into
external adapters (`BSEnv`), result cache.  Its sub-rule handlers call
`_handleSingleSelector` directly (no re-entry), so no fuel is needed; the
async/await plumbing is modelled as synchronous calls (spec §5: asynchrony
exists only for uniform invocation, not for suspension). -/

/-- `SelectorType` from types.js. -/
inductive SelectorType where
  | css | xpath | json | regex | js
deriving DecidableEq

/-- An index value from `_parseIndexValue`: an integer or (for a
non-numeric spec) the trimmed text. -/
inductive IdxVal where
  | num (n : Int)
  | strv (s : JStr)

/-- `_parseIndexExpression` results: single / range / multi index specs. -/
inductive IndexSpec where
  | single (value : IdxVal)
  | range (start stop : IdxVal)
  | multi (indices : List IdxVal)

/-- `_parseIndexValue`: trim; empty becomes 0; `parseInt` else the text. -/
def parseIndexValue (v : JStr) : IdxVal :=
  let trimmed := jsTrim v
  if trimmed.isEmpty then .num 0
  else
    match jsParseInt trimmed with
    | some n => .num n
    | none => .strv trimmed

/-- `_parseIndexExpression`: `start:end` range, comma-separated multi, or a
single index. -/
def parseIndexExpression (indexExpr : JStr) : IndexSpec :=
  if jsIncludes indexExpr [':'] then
    let ps := jsSplit [':'] indexExpr
    .range (parseIndexValue (ps.headD [])) (parseIndexValue (ps.getD 1 []))
  else if jsIncludes indexExpr [','] then
    .multi ((jsSplit [','] indexExpr).map fun i => parseIndexValue (jsTrim i))
  else
    .single (parseIndexValue indexExpr)

/-- The jsSlice `s[a..b)`. -/
def jsSlice (a b : Nat) (s : JStr) : JStr := (s.drop a).take (b - a)

/-- The greedy match `^(.+)\[(.+)\](.*)$` used by `_parseSelector` to peel a
trailing index suffix: both `(.+)` groups are greedy (so the last feasible
`[` and then the last feasible `]` are chosen) and `.` never matches a line
terminator. -/
def idxMatch (s : JStr) : Option (JStr × JStr × JStr) :=
  let n := s.length
  let okJ : Nat → Nat → Bool := fun i j =>
    decide (i + 2 ≤ j) && decide (j < n) && (s.get? j == some ']') &&
      nlFree (jsSlice (i + 1) j s) && nlFree (s.drop (j + 1))
  let okI : Nat → Bool := fun i =>
    decide (1 ≤ i) && (s.get? i == some '[') && nlFree (s.take i) &&
      ((List.range n).any fun j => okJ i j)
  match ((List.range n).filter okI).max? with
  | none => none
  | some i =>
    match ((List.range n).filter (okJ i)).max? with
    | none => none
    | some j => some (s.take i, jsSlice (i + 1) j s, s.drop (j + 1))

/-- `_parseSelector`: prefix dispatch to a selector kind, then index-suffix
extraction (the suffix is removed from the expression, the part after the
brackets re-appended). -/
def bsParseSelector (defaultSel : SelectorType) (rule : JStr) :
    SelectorType × JStr × Option IndexSpec :=
  let p : SelectorType × JStr :=
    if jsStartsWith (str "@css:") rule then (.css, rule.drop 5)
    else if jsStartsWith (str "@XPath:") rule then (.xpath, rule.drop 7)
    else if jsStartsWith (str "@json:") rule then (.json, rule.drop 6)
    else if jsStartsWith (str "@regex:") rule then (.regex, rule.drop 7)
    else if jsStartsWith (str "@js:") rule then (.js, rule.drop 4)
    else (defaultSel, rule)
  match idxMatch p.2 with
  | some (base, idxPart, after) =>
    (p.1, base ++ after, some (parseIndexExpression idxPart))
  | none => (p.1, p.2, none)

/-- Modelled from the spec: the implementations of `indexOperator`,
`rangeOperator` and `multiIndexOperator` are not present under src/ (the
operators index module only re-exports them).  Per spec §4.2/§6 an index
suffix selects from an ordered sequence, a single integer supporting
negative indices counting from the end; failure yields an unsuccessful
null outcome. -/
def normIdx (len : Nat) (n : Int) : Int := if n < 0 then (len : Int) + n else n

/-- Modelled from the spec: single-index selection (see `normIdx`). -/
def indexOperator (data : JSValue) (value : IdxVal) : Outcome :=
  match data, value with
  | vArr xs, .num n =>
    let i := normIdx xs.length n
    if 0 ≤ i ∧ i.toNat < xs.length then
      { success := true, data := xs.getD i.toNat vNull,
        rule := str "index", selector := str "index" }
    else
      { success := false, data := vNull, rule := str "index", selector := str "index" }
  | _, _ => { success := false, data := vNull, rule := str "index", selector := str "index" }

/-- Modelled from the spec: `start:end` range selection over a sequence. -/
def rangeOperator (data : JSValue) (a b : IdxVal) : Outcome :=
  match data, a, b with
  | vArr xs, .num s, .num e =>
    let s' := (normIdx xs.length s).toNat
    let e' := (normIdx xs.length e).toNat
    let picked := (xs.drop s').take (e' - s')
    { success := !picked.isEmpty, data := vArr picked,
      rule := str "range", selector := str "range" }
  | _, _, _ => { success := false, data := vNull, rule := str "range", selector := str "range" }

/-- Modelled from the spec: multi-index selection over a sequence. -/
def multiIndexOperator (data : JSValue) (indices : List IdxVal) : Outcome :=
  match data with
  | vArr xs =>
    let picked := indices.filterMap fun v =>
      match v with
      | .num n =>
        let i := normIdx xs.length n
        if 0 ≤ i ∧ i.toNat < xs.length then some (xs.getD i.toNat vNull) else none
      | .strv _ => none
    { success := !picked.isEmpty, data := vArr picked,
      rule := str "multi-index", selector := str "multi-index" }
  | _ =>
    { success := false, data := vNull, rule := str "multi-index",
      selector := str "multi-index" }

/-- `_applyIndexOptions`: thread `data`/`success` of the index operator into
a successful selector result. -/
def applyIndexOptions (result : Outcome) (idx : Option IndexSpec) : Outcome :=
  if ¬result.success then result
  else
    match idx with
    | none => result
    | some (.single v) =>
      let r := indexOperator result.data v
      { result with data := r.data, success := r.success }
    | some (.range a b) =>
      let r := rangeOperator result.data a b
      { result with data := r.data, success := r.success }
    | some (.multi vs) =>
      let r := multiIndexOperator result.data vs
      { result with data := r.data, success := r.success }

/-- External selector adapters for the facade engine (spec §6: uniform
`evaluate(source, expression) -> Outcome` contract; the JS adapter also
receives the merged context). -/
structure BSEnv where
  css : JSValue → JStr → Except JStr Outcome
  cssContains : JSValue → JStr → Except JStr Outcome
  xpath : JSValue → JStr → Except JStr Outcome
  json : JSValue → JStr → Except JStr Outcome
  regex : JSValue → JStr → Except JStr Outcome
  js : JSValue → JStr → JSValue → Except JStr Outcome
  rep : RepFn

/-- Cache configuration (engine.js defaults). -/
structure CacheCfg where
  enabled : Bool := false
  maxSize : Nat := 1000
  ttl : Nat := 300000

/-- Facade engine options (modelled fields). -/
structure BSOptions where
  defaultSelector : SelectorType := .css
  context : JSValue := vObj []
  cache : CacheCfg := {}

/-- JavaScript object spread `{...a, ...b}` (used for context merging). -/
def jsMergeObj (a b : JSValue) : JSValue :=
  match a, b with
  | vObj fa, vObj fb =>
    vObj
      ((fa.map fun kv =>
          (kv.1, ((fb.find? fun kv2 => kv2.1 == kv.1).map Prod.snd).getD kv.2)) ++
        fb.filter fun kv2 => !(fa.any fun kv => kv.1 == kv2.1))
  | _, _ => b

/-- `_handleSingleSelector`: parse prefix and index, dispatch to the adapter
of the detected kind, apply index options (the `:contains(` CSS path skips
them, as in `_executeCssSelector`). -/
def bsHandleSingleSelector (env : BSEnv) (opts : BSOptions) (rule : JStr)
    (src ctx : JSValue) : Except JStr Outcome :=
  let p := bsParseSelector opts.defaultSelector rule
  match p.1 with
  | .css =>
    if jsIncludes p.2.1 (str ":contains(") then env.cssContains src p.2.1
    else (env.css src p.2.1).map fun r => applyIndexOptions r p.2.2
  | .xpath => (env.xpath src p.2.1).map fun r => applyIndexOptions r p.2.2
  | .json => (env.json src p.2.1).map fun r => applyIndexOptions r p.2.2
  | .regex => (env.regex src p.2.1).map fun r => applyIndexOptions r p.2.2
  | .js =>
    (env.js src p.2.1 (jsMergeObj opts.context ctx)).map fun r =>
      applyIndexOptions r p.2.2

/-- Placeholder for the impossible all-sub-evaluations-present-yet-divergent
branch of the operator wrappers below (`fallbackOperator` and
`concatOperator` return `some _` whenever every `exec` is `some _`). -/
def unreachableOutcome : Outcome :=
  { success := false, data := vNull, rule := [], selector := [] }

/-- `_handleFallbackRule`: quote-aware `||` split, each sub-rule evaluated
through `_handleSingleSelector`. -/
def bsHandleFallbackRule (env : BSEnv) (opts : BSOptions) (rule : JStr)
    (src ctx : JSValue) : Except JStr Outcome :=
  let rules := parseFallbackRuleSplit rule
  let sels := rules.map fun r =>
    SelM.mk r (some (bsHandleSingleSelector env opts r src ctx))
  .ok (((fallbackOperator sels).map Prod.fst).getD unreachableOutcome)

/-- `_handleConcatRule`: legality-checked `&&` split, each sub-rule
evaluated through `_handleSingleSelector`. -/
def bsHandleConcatRule (env : BSEnv) (opts : BSOptions) (rule : JStr)
    (src ctx : JSValue) : Except JStr Outcome :=
  match parseConcatRule rule with
  | .error e => .error e
  | .ok rules =>
    let sels := rules.map fun r =>
      SelM.mk r (some (bsHandleSingleSelector env opts r src ctx))
    .ok ((concatOperator [] true sels).getD unreachableOutcome)

/-- Consecutive `(pattern, replacement)` pairs from the `##` chunks
(`for (let i = 1; i + 1 < parts.length; i += 2)`). -/
def cleanPairs : List JStr → List (JStr × JStr)
  | a :: b :: t => (a, b) :: cleanPairs t
  | _ => []

/-- `_handleCleanRule`: split on raw `##`; with no selector part apply the
cleanup directly to the source, otherwise run the selector and feed its data
through one `regexCleanOperator` step or the sequential
`batchRegexCleanOperator` chain. -/
def bsHandleCleanRule (env : BSEnv) (opts : BSOptions) (rule : JStr)
    (src ctx : JSValue) : Except JStr Outcome :=
  let parts := jsSplit ['#', '#'] rule
  let selectorPart := parts.headD []
  let cleanParts := cleanPairs (parts.drop 1)
  if selectorPart.isEmpty then
    if cleanParts.length = 1 then
      .ok (regexCleanOperator env.rep src (cleanParts.headD ([], [])).1
        (cleanParts.headD ([], [])).2)
    else
      .ok (batchRegexCleanOperator env.rep src cleanParts)
  else
    match bsHandleSingleSelector env opts selectorPart src ctx with
    | .error e => .error e
    | .ok selectorResult =>
      if ¬selectorResult.success then .ok selectorResult
      else if cleanParts.length = 1 then
        let c := regexCleanOperator env.rep selectorResult.data
          (cleanParts.headD ([], [])).1 (cleanParts.headD ([], [])).2
        .ok { c with rule := rule, originalData := some selectorResult.data }
      else
        let c := batchRegexCleanOperator env.rep selectorResult.data cleanParts
        .ok { c with rule := rule, originalData := some selectorResult.data }

/-- `_executeRule`: trim, then operator dispatch by substring tests. -/
def bsExecuteRule (env : BSEnv) (opts : BSOptions) (rule : JStr)
    (src ctx : JSValue) : Except JStr Outcome :=
  let cleanRule := jsTrim rule
  if jsIncludes cleanRule (str "||") then
    bsHandleFallbackRule env opts cleanRule src ctx
  else if jsIncludes cleanRule (str "&&") then
    bsHandleConcatRule env opts cleanRule src ctx
  else if jsIncludes cleanRule ['#', '#'] then
    bsHandleCleanRule env opts cleanRule src ctx
  else
    bsHandleSingleSelector env opts cleanRule src ctx

/-! ### The result cache and the facade entry point (engine.js) -/

/-- `Map.prototype.get` over the insertion-ordered entry list. -/
def mapGet (m : List (JStr × Outcome × Nat)) (k : JStr) : Option (Outcome × Nat) :=
  (m.find? fun e => e.1 == k).map (·.2)

/-- `Map.prototype.set`: update in place when the key exists (keeping its
insertion position), otherwise append. -/
def mapSet (m : List (JStr × Outcome × Nat)) (k : JStr) (v : Outcome × Nat) :
    List (JStr × Outcome × Nat) :=
  if m.any (fun e => e.1 == k) then m.map fun e => if e.1 == k then (k, v) else e
  else m ++ [(k, v)]

/-- `Map.prototype.delete`. -/
def mapDelete (m : List (JStr × Outcome × Nat)) (k : JStr) :
    List (JStr × Outcome × Nat) :=
  m.filter fun e => !(e.1 == k)

/-- The engine's mutable state: the result cache, keyed by
`_generateCacheKey`, each entry carrying its insertion timestamp. -/
structure BSState where
  cache : List (JStr × Outcome × Nat) := []

/-- `_generateCacheKey`: rule text, a 100-character bound of the serialized
source, and the serialized context. -/
def generateCacheKey (rule : JStr) (src ctx : JSValue) : JStr :=
  let sourceKey :=
    (match src with
      | vStr s => s
      | v => jsonStringify v).take 100
  rule ++ '|' :: sourceKey ++ '|' :: jsonStringify ctx

/-- `_cacheResult`: evict the oldest-inserted entry on capacity overflow,
then store. -/
def cacheResultStep (opts : BSOptions) (st : BSState) (key : JStr)
    (result : Outcome) (now : Nat) : BSState :=
  let c :=
    if st.cache.length ≥ opts.cache.maxSize then
      match st.cache with
      | [] => []
      | e :: _ => mapDelete st.cache e.1
    else st.cache
  ⟨mapSet c key (result, now)⟩

/-- The compute-and-maybe-cache tail of `parseRule`. -/
def bsCompute (env : BSEnv) (opts : BSOptions) (st : BSState) (now : Nat)
    (rule : JStr) (src ctx : JSValue) (cacheKey : JStr) : Outcome × BSState :=
  match bsExecuteRule env opts rule src ctx with
  | .error e =>
    ({ success := false, data := vNull, rule := rule, selector := str "unknown",
       error := some e }, st)
  | .ok parseResult =>
    let st' :=
      if opts.cache.enabled ∧ parseResult.success then
        cacheResultStep opts st cacheKey parseResult now
      else st
    (parseResult, st')

/-- `BookSourceRuleEngine.parseRule`: the facade entry point.  Every
internal throw is caught and converted to a failed outcome; a fresh cache
hit is returned with `fromCache` set; a stale hit is evicted and
recomputed. -/
def bsParseRule (env : BSEnv) (opts : BSOptions) (st : BSState) (now : Nat)
    (rule : JStr) (src ctx : JSValue) : Outcome × BSState :=
  if rule.isEmpty then
    ({ success := false, data := vNull, rule := rule, selector := str "unknown",
       error := some (str "规则不能为空") }, st)
  else
    let cacheKey := generateCacheKey rule src ctx
    match (if opts.cache.enabled then mapGet st.cache cacheKey else none) with
    | some (res, ts) =>
      if now - ts < opts.cache.ttl then ({ res with fromCache := true }, st)
      else bsCompute env opts ⟨mapDelete st.cache cacheKey⟩ now rule src ctx cacheKey
    | none => bsCompute env opts st now rule src ctx cacheKey

/-- An adapter environment for the facade engine whose CSS adapter matches
and yields the text `12` (as a document containing `12` would). -/
def envB : BSEnv where
  css := fun _ e =>
    .ok { success := true, data := vStr (str "12"), rule := e, selector := str "css" }
  cssContains := fun _ e =>
    .ok { success := false, data := vNull, rule := e, selector := str "css" }
  xpath := fun _ e =>
    .ok { success := false, data := vNull, rule := e, selector := str "xpath" }
  json := fun _ e =>
    .ok { success := false, data := vNull, rule := e, selector := str "json" }
  regex := fun _ e =>
    .ok { success := false, data := vNull, rule := e, selector := str "regex" }
  js := fun _ e _ =>
    .ok { success := false, data := vNull, rule := e, selector := str "js" }
  rep := replaceAllSub

/-- An adapter environment whose CSS adapter reports the no-match outcome of
`cssSelector` (selectors/css.js lines 27-34): `success false`, null data and
no error field. -/
def envNM : BSEnv where
  css := fun _ e =>
    .ok { success := false, data := vNull, rule := e, selector := str "css" }
  cssContains := fun _ e =>
    .ok { success := false, data := vNull, rule := e, selector := str "css" }
  xpath := fun _ e =>
    .ok { success := false, data := vNull, rule := e, selector := str "xpath" }
  json := fun _ e =>
    .ok { success := false, data := vNull, rule := e, selector := str "json" }
  regex := fun _ e =>
    .ok { success := false, data := vNull, rule := e, selector := str "regex" }
  js := fun _ e _ =>
    .ok { success := false, data := vNull, rule := e, selector := str "js" }
  rep := replaceAllSub

/-- An adapter environment whose CSS adapter extracts a value depending on
the whole source (here: the source itself). -/
def envId : BSEnv where
  css := fun src e =>
    .ok { success := true, data := src, rule := e, selector := str "css" }
  cssContains := fun _ e =>
    .ok { success := false, data := vNull, rule := e, selector := str "css" }
  xpath := fun _ e =>
    .ok { success := false, data := vNull, rule := e, selector := str "xpath" }
  json := fun _ e =>
    .ok { success := false, data := vNull, rule := e, selector := str "json" }
  regex := fun _ e =>
    .ok { success := false, data := vNull, rule := e, selector := str "regex" }
  js := fun _ e _ =>
    .ok { success := false, data := vNull, rule := e, selector := str "js" }
  rep := replaceAllSub

/-- The outcome `parseRule` computes for a triple with no cache involvement
(rule validation, `_executeRule`, error conversion). -/
def bsFresh (env : BSEnv) (opts : BSOptions) (rule : JStr) (src ctx : JSValue) :
    Outcome :=
  if rule.isEmpty then
    { success := false, data := vNull, rule := rule, selector := str "unknown",
      error := some (str "规则不能为空") }
  else
    match bsExecuteRule env opts rule src ctx with
    | .ok o => o
    | .error e =>
      { success := false, data := vNull, rule := rule, selector := str "unknown",
        error := some e }

/-- The outcomes of a sequence of `parseRule` calls on one engine, all with
the same (rule, source, context) triple, at the given call times. -/
def bsCallSeq (env : BSEnv) (opts : BSOptions) (rule : JStr) (src ctx : JSValue) :
    BSState → List Nat → List Outcome
  | _, [] => []
  | st, now :: rest =>
    (bsParseRule env opts st now rule src ctx).1 ::
      bsCallSeq env opts rule src ctx (bsParseRule env opts st now rule src ctx).2 rest

/-- Every cache entry stored under this triple's key holds the fresh
outcome. -/
def cacheFaithful (env : BSEnv) (opts : BSOptions) (rule : JStr) (src ctx : JSValue)
    (st : BSState) : Prop :=
  ∀ e ∈ st.cache, e.1 = generateCacheKey rule src ctx →
    e.2.1 = bsFresh env opts rule src ctx

/-- Facade options with the result cache enabled (default size and TTL). -/
def optsC9 : BSOptions := { cache := { enabled := true } }

/-- A 101-character source; shares its first 100 characters with `srcB`. -/
def srcA : JSValue := vStr (List.replicate 100 'x' ++ ['A'])

/-- A distinct 101-character source with the same 100-character prefix. -/
def srcB : JSValue := vStr (List.replicate 100 'x' ++ ['B'])

/-- The per-attempt diagnostics accumulated by the fallback loop starting at
index `i`: thrown errors keep their message, empty results record
`empty result`. -/
def fbErrsOf (i : Nat) : List SelM → List (Nat × JStr × JStr)
  | [] => []
  | s :: t =>
    (i, selRuleOr s,
      match s.exec with
      | some (.error e) => e
      | _ => str "empty result") :: fbErrsOf (i + 1) t

/-- The string a sub-rule contributes to the default-configuration join:
`some` exactly for a successful, non-empty result. -/
def concatContrib (s : SelM) : Option JStr :=
  match s.exec with
  | some (.ok r) =>
    if r.success && !isEmpty r.data then some (processDataForConcat r.data r)
    else none
  | _ => none

/-- The diagnostics the default-configuration concat loop records from
index `i` on. -/
def ccErrsOf (i : Nat) : List SelM → List (Nat × JStr × JStr)
  | [] => []
  | s :: t =>
    match s.exec with
    | some (.ok r) =>
      if r.success && !isEmpty r.data then ccErrsOf (i + 1) t
      else (i, selRuleOr s, str "empty result (ignored)") :: ccErrsOf (i + 1) t
    | some (.error e) => (i, selRuleOr s, e) :: ccErrsOf (i + 1) t
    | none => []

example : hasIllegalAmp (str "a&&b") = true := by decide
example : hasIllegalAmp (str "a &&b") = true := by decide
example : hasIllegalAmp (str "a&& b") = true := by decide
example : hasIllegalAmp (str "a  &&  b") = true := by decide
example : hasIllegalAmp (str "a  && b") = false := by decide
example : hasIllegalAmp (str "a &&  b") = false := by decide
example : parseConcatRule (str "a  && b") = .ok [str "a", str "b"] := rfl
example : splitConcatRaw (str "a  && b") = (true, [str "a ", str "b"]) := by decide
example :
    parseFallbackRuleSplit (str "@css:h1 || @js:x") = [str "@css:h1", str "@js:x"] := by
  decide
example :
    parseFallbackRuleSplit ('@' :: str "text:" ++ '\'' :: str "a||b" ++ ['\'']) =
      ['@' :: str "text:" ++ '\'' :: str "a||b" ++ ['\'']] := by
  decide

example : jsTrim (str "  a b  ") = str "a b" := by decide
example : jsIncludes (str "@text:x||y") (str "||") = true := by decide
example : jsSplit (str "##") (str "a##b##c") = [str "a", str "b", str "c"] := by decide
example : jsSplit (str "##") (str "##a##") = [str "", str "a", str ""] := by decide
example : replaceAllSub (str "1") (str "3##2##4") (str "12") = str "3##2##42" := by decide
example : jsParseInt (str "-12") = some (-12) := by decide
example : jsParseInt (str "a") = none := by decide
example : jsonStringify (vObj []) = ['{', '}'] := rfl

/-! ### C2 development -/

lemma jsTrim_of_dropLeading_nil {s : JStr} (h : dropLeadingWS s = []) : jsTrim s = [] := by
  simp [jsTrim, h, dropTrailingWS]

lemma jsStartsWith_text_ne_nil {t : JStr} (h : jsStartsWith (str "@text:") t = true) :
    t ≠ [] := by
  intro he
  subst he
  simp [jsStartsWith, str] at h

lemma pushSegment_isEmpty (seg : JStr) :
    (pushSegment seg).isEmpty = true ↔ jsTrim seg = [] := by
  unfold pushSegment
  by_cases h : jsStartsWith (str "@text:") (jsTrim seg) = true ∧ seg ≠ jsTrim seg ∧
      endsWithWS seg = true
  · rw [if_pos h]
    obtain ⟨h1, _, _⟩ := h
    have hne : jsTrim seg ≠ [] := by
      intro hz
      exact jsStartsWith_text_ne_nil (by simpa [hz] using h1) rfl
    constructor
    · intro he
      rw [List.isEmpty_iff] at he
      exact absurd (jsTrim_of_dropLeading_nil he) hne
    · intro hz
      exact absurd hz hne
  · rw [if_neg h, List.isEmpty_iff]

theorem parseConcatRule_error_iff_aux (s : JStr) :
    (∃ e, parseConcatRule s = .error e) ↔
      (hasIllegalAmp s = true ∨
        ((splitConcatRaw s).1 = true ∧ ∃ seg ∈ (splitConcatRaw s).2, jsTrim seg = [])) := by
  have hbridge : (((splitConcatRaw s).2.map pushSegment).any List.isEmpty = true) ↔
      (∃ seg ∈ (splitConcatRaw s).2, jsTrim seg = []) := by
    rw [List.any_eq_true]
    constructor
    · rintro ⟨x, hx, hxe⟩
      rw [List.mem_map] at hx
      obtain ⟨seg, hseg, rfl⟩ := hx
      exact ⟨seg, hseg, (pushSegment_isEmpty seg).mp hxe⟩
    · rintro ⟨seg, hseg, hseg0⟩
      exact ⟨pushSegment seg, List.mem_map_of_mem _ hseg, (pushSegment_isEmpty seg).mpr hseg0⟩
  unfold parseConcatRule
  by_cases h1 : hasIllegalAmp s = true
  · simp [h1]
  · rw [if_neg h1]
    by_cases h2 : ((splitConcatRaw s).1 = true ∧
        ((splitConcatRaw s).2.map pushSegment).any List.isEmpty = true)
    · rw [if_pos h2]
      constructor
      · intro _
        exact Or.inr ⟨h2.1, hbridge.mp h2.2⟩
      · intro _
        exact ⟨_, rfl⟩
    · rw [if_neg h2]
      constructor
      · rintro ⟨e, he⟩
        exact absurd he (by simp)
      · rintro (hc | ⟨hd, hseg⟩)
        · exact absurd hc h1
        · exact absurd ⟨hd, hbridge.mpr hseg⟩ h2

/-- C2: `parseConcatRule` raises a syntax error exactly for an illegally
spaced bare `&&` (no space on a side, or multi-space on both sides), or —
once a legal delimiter was found — for a segment that is empty after
trimming; the four illegal spacing examples raise, the two asymmetric
multi-space ones are accepted with the surplus space folded into the
adjacent segment. -/
theorem parseConcatRule_syntaxError_iff :
    (∀ s : JStr,
      (∃ e, parseConcatRule s = .error e) ↔
        (hasIllegalAmp s = true ∨
          ((splitConcatRaw s).1 = true ∧ ∃ seg ∈ (splitConcatRaw s).2, jsTrim seg = []))) ∧
    (∃ e, parseConcatRule (str "a&&b") = .error e) ∧
    (∃ e, parseConcatRule (str "a &&b") = .error e) ∧
    (∃ e, parseConcatRule (str "a&& b") = .error e) ∧
    (∃ e, parseConcatRule (str "a  &&  b") = .error e) ∧
    parseConcatRule (str "a  && b") = .ok [str "a", str "b"] ∧
    parseConcatRule (str "a &&  b") = .ok [str "a", str "b"] ∧
    (splitConcatRaw (str "a  && b")).2 = [str "a ", str "b"] ∧
    (splitConcatRaw (str "a &&  b")).2 = [str "a", str " b"] := by
  refine ⟨parseConcatRule_error_iff_aux, ⟨_, rfl⟩, ⟨_, rfl⟩, ⟨_, rfl⟩, ⟨_, rfl⟩,
    rfl, rfl, rfl, rfl⟩

/-! ### Fallback loop lemmas (C1, C5, C4) -/

lemma fbLoop_hit :
    ∀ (rem : List SelM) (all : List SelM) (k : Nat) (sk : SelM) (r : Outcome)
      (i : Nat) (errs : List (Nat × JStr × JStr)) (rulesAcc : List JStr)
      (trace : List Nat),
      rem.get? k = some sk → sk.exec = some (.ok r) → r.success = true →
      isEmpty r.data = false →
      (∀ j sj, j < k → rem.get? j = some sj → sj.exec ≠ none ∧ isHit sj = false) →
      ∃ o, fbLoop all rem i errs rulesAcc trace =
          some (o, trace ++ List.range' i (k + 1) 1) ∧
        o.success = true ∧ o.data = r.data
  | [], _, k, sk, r, i, errs, rulesAcc, trace, hk, _, _, _, _ => by
    simp at hk
  | sel :: rest, all, 0, sk, r, i, errs, rulesAcc, trace, hk, hex, hsucc, hne, _ => by
    simp only [List.get?_cons_zero, Option.some.injEq] at hk
    subst hk
    refine ⟨{ success := true, data := r.data,
              rule := List.intercalate (str " || ") (rulesAcc ++ [selRuleOr sel]),
              selector := str "fallback", usedRule := some (selRuleOr sel),
              fallbackIndex := some i }, ?_, rfl, rfl⟩
    simp only [fbLoop, hex, hsucc, hne, Bool.not_false, Bool.and_self, if_pos]
    simp [List.range'_succ, List.range']
  | sel :: rest, all, k + 1, sk, r, i, errs, rulesAcc, trace, hk, hex, hsucc, hne, hprev => by
    simp only [List.get?_cons_succ] at hk
    have h0 := hprev 0 sel (Nat.succ_pos k) rfl
    have hprev' : ∀ j sj, j < k → rest.get? j = some sj → sj.exec ≠ none ∧ isHit sj = false := by
      intro j sj hj hsj
      exact hprev (j + 1) sj (Nat.succ_lt_succ hj) (by simpa using hsj)
    obtain ⟨hne0, hhit0⟩ := h0
    match hexec0 : sel.exec with
    | none => exact absurd hexec0 hne0
    | some (.ok r0) =>
      have hguard : (r0.success && !isEmpty r0.data) = false := by
        simpa [isHit, hexec0] using hhit0
      obtain ⟨o, ho, hos, hod⟩ :=
        fbLoop_hit rest all k sk r (i + 1) (errs ++ [(i, selRuleOr sel, str "empty result")])
          (rulesAcc ++ [selRuleOr sel]) (trace ++ [i]) hk hex hsucc hne hprev'
      refine ⟨o, ?_, hos, hod⟩
      simp only [fbLoop, hexec0, hguard, Bool.false_eq_true, if_false]
      rw [ho]
      simp [List.range'_succ, List.append_assoc]
    | some (.error e) =>
      obtain ⟨o, ho, hos, hod⟩ :=
        fbLoop_hit rest all k sk r (i + 1) (errs ++ [(i, selRuleOr sel, e)])
          (rulesAcc ++ [selRuleOr sel]) (trace ++ [i]) hk hex hsucc hne hprev'
      refine ⟨o, ?_, hos, hod⟩
      simp only [fbLoop, hexec0]
      rw [ho]
      simp [List.range'_succ, List.append_assoc]

/-- C1: when some fallback sub-rule evaluates to a successful non-empty
Outcome, `fallbackOperator` succeeds with the data of the leftmost such
sub-rule, and the evaluation trace is exactly the indices up to it — no
sub-rule to its right is ever executed. -/
theorem fallback_short_circuit (sels : List SelM) (k : Nat) (sk : SelM) (r : Outcome)
    (hk : sels.get? k = some sk) (hex : sk.exec = some (.ok r))
    (hsucc : r.success = true) (hne : isEmpty r.data = false)
    (hprev : ∀ j sj, j < k → sels.get? j = some sj → sj.exec ≠ none ∧ isHit sj = false) :
    ∃ o, fallbackOperator sels = some (o, List.range (k + 1)) ∧
      o.success = true ∧ o.data = r.data ∧ ∀ j ∈ List.range (k + 1), j ≤ k := by
  obtain ⟨o, ho, hos, hod⟩ :=
    fbLoop_hit sels sels k sk r 0 [] [] [] hk hex hsucc hne hprev
  refine ⟨o, ?_, hos, hod, ?_⟩
  · rw [fallbackOperator, ho, List.range_eq_range']
    simp
  · intro j hj
    rw [List.mem_range] at hj
    omega

theorem fallback_short_circuit_witness :
    ∃ o, fallbackOperator
        [⟨str "r0",
          some (.ok { success := false, data := vNull, rule := str "r0",
                      selector := str "css" })⟩,
         ⟨str "r1",
          some (.ok { success := true, data := vStr (str "T"), rule := str "r1",
                      selector := str "css" })⟩,
         ⟨str "r2", none⟩] = some (o, List.range 2) ∧
      o.success = true ∧ o.data = vStr (str "T") ∧ ∀ j ∈ List.range 2, j ≤ 1 := by
  have hp : ∀ j sj, j < 1 →
      [⟨str "r0",
        some (.ok { success := false, data := vNull, rule := str "r0",
                    selector := str "css" })⟩,
       ⟨str "r1",
        some (.ok { success := true, data := vStr (str "T"), rule := str "r1",
                    selector := str "css" })⟩,
       (⟨str "r2", none⟩ : SelM)].get? j = some sj →
      sj.exec ≠ none ∧ isHit sj = false := by
    intro j sj hj hsj
    interval_cases j
    simp only [List.get?_cons_zero, Option.some.injEq] at hsj
    subst hsj
    exact ⟨by simp, rfl⟩
  exact fallback_short_circuit _ 1
    ⟨str "r1",
     some (.ok { success := true, data := vStr (str "T"), rule := str "r1",
                 selector := str "css" })⟩
    { success := true, data := vStr (str "T"), rule := str "r1",
      selector := str "css" }
    rfl rfl rfl rfl hp

lemma fbLoop_allfail :
    ∀ (rem : List SelM) (all : List SelM) (i : Nat) (errs : List (Nat × JStr × JStr))
      (rulesAcc : List JStr) (trace : List Nat),
      (∀ s ∈ rem, s.exec ≠ none ∧ isHit s = false) →
      fbLoop all rem i errs rulesAcc trace =
        fbLoop all [] (i + rem.length) (errs ++ fbErrsOf i rem)
          (rulesAcc ++ rem.map selRuleOr) (trace ++ List.range' i rem.length 1)
  | [], all, i, errs, rulesAcc, trace, _ => by simp [fbErrsOf]
  | sel :: rest, all, i, errs, rulesAcc, trace, hall => by
    obtain ⟨hne0, hhit0⟩ := hall sel (List.mem_cons_self _ _)
    have hrest : ∀ s ∈ rest, s.exec ≠ none ∧ isHit s = false := fun s hs =>
      hall s (List.mem_cons_of_mem _ hs)
    match hexec0 : sel.exec with
    | none => exact absurd hexec0 hne0
    | some (.ok r0) =>
      have hguard : (r0.success && !isEmpty r0.data) = false := by
        simpa [isHit, hexec0] using hhit0
      rw [show fbLoop all (sel :: rest) i errs rulesAcc trace =
          fbLoop all rest (i + 1) (errs ++ [(i, selRuleOr sel, str "empty result")])
            (rulesAcc ++ [selRuleOr sel]) (trace ++ [i]) by
        simp only [fbLoop, hexec0, hguard, Bool.false_eq_true, if_false]]
      rw [fbLoop_allfail rest all (i + 1) _ _ _ hrest]
      simp only [fbErrsOf, hexec0, List.map_cons, List.length_cons, List.range'_succ,
        Nat.succ_add, Nat.add_succ, List.cons_append, List.append_assoc,
        List.singleton_append, List.nil_append]
    | some (.error e) =>
      rw [show fbLoop all (sel :: rest) i errs rulesAcc trace =
          fbLoop all rest (i + 1) (errs ++ [(i, selRuleOr sel, e)])
            (rulesAcc ++ [selRuleOr sel]) (trace ++ [i]) by
        simp only [fbLoop, hexec0]]
      rw [fbLoop_allfail rest all (i + 1) _ _ _ hrest]
      simp only [fbErrsOf, hexec0, List.map_cons, List.length_cons, List.range'_succ,
        Nat.succ_add, Nat.add_succ, List.cons_append, List.append_assoc,
        List.singleton_append, List.nil_append]

theorem fallback_all_fail_cex :
    (fallbackOperator
      [⟨str "r0",
        some (.ok { success := false, data := vNull, rule := str "r0",
                    selector := str "css" })⟩,
       ⟨str "r1",
        some (.ok { success := false, data := vStr [], rule := str "r1",
                    selector := str "concat" })⟩]).map (fun p => p.1.data) =
      some vNull ∧ vNull ≠ vStr [] :=
  ⟨rfl, fun h => JSValue.noConfusion h⟩

/-- C5 (amended): when no fallback sub-rule yields a successful non-empty
Outcome, the operator re-executes the last sub-rule and returns `success =
false` with data `lastResult.data || null` — the last value only when it is
JavaScript-truthy, `null` otherwise — with every attempt's diagnostics
aggregated into the composite error (or the final-failure message when the
last sub-rule throws). -/
theorem fallback_all_fail_amended (sels : List SelM) (lastSel : SelM)
    (hlast : sels.getLast? = some lastSel)
    (hall : ∀ s ∈ sels, s.exec ≠ none ∧ isHit s = false) :
    ∃ o, fallbackOperator sels =
        some (o, List.range sels.length ++ [sels.length - 1]) ∧
      o.success = false ∧
      o.data = (match lastSel.exec with
        | some (.ok r) => jsOr r.data vNull
        | _ => vNull) ∧
      o.error = some (match lastSel.exec with
        | some (.error e) => str "所有选择器都失败，最后兜底也失败: " ++ e
        | _ => compositeErr (fbErrsOf 0 sels)) := by
  have hmem : lastSel ∈ sels := List.mem_of_mem_getLast? hlast
  rw [fallbackOperator, fbLoop_allfail sels sels 0 [] [] [] hall]
  simp only [List.nil_append, Nat.zero_add]
  match hexec : lastSel.exec with
  | none => exact absurd hexec (hall lastSel hmem).1
  | some (.ok r) =>
    simp only [fbLoop, hlast, hexec, List.range_eq_range']
    exact ⟨_, rfl, rfl, rfl, rfl⟩
  | some (.error e) =>
    simp only [fbLoop, hlast, hexec, List.range_eq_range']
    exact ⟨_, rfl, rfl, rfl, rfl⟩

theorem fallback_all_fail_amended_witness :
    ∃ o, fallbackOperator
        [⟨str "r0",
          some (.ok { success := false, data := vNull, rule := str "r0",
                      selector := str "css" })⟩,
         ⟨str "r1",
          some (.ok { success := false, data := vStr [], rule := str "r1",
                      selector := str "concat" })⟩] =
        some (o, List.range 2 ++ [1]) ∧
      o.success = false ∧ o.data = vNull ∧
      o.error = some (compositeErr
        (fbErrsOf 0
          [⟨str "r0",
            some (.ok { success := false, data := vNull, rule := str "r0",
                        selector := str "css" })⟩,
           ⟨str "r1",
            some (.ok { success := false, data := vStr [], rule := str "r1",
                        selector := str "concat" })⟩])) := by
  have h := fallback_all_fail_amended
    [⟨str "r0",
      some (.ok { success := false, data := vNull, rule := str "r0",
                  selector := str "css" })⟩,
     ⟨str "r1",
      some (.ok { success := false, data := vStr [], rule := str "r1",
                  selector := str "concat" })⟩]
    ⟨str "r1",
     some (.ok { success := false, data := vStr [], rule := str "r1",
                 selector := str "concat" })⟩
    rfl
    (by
      intro s hs
      simp only [List.mem_cons, List.not_mem_nil, or_false] at hs
      rcases hs with rfl | rfl
      · exact ⟨by simp, rfl⟩
      · exact ⟨by simp, rfl⟩)
  exact h

/-! ### Success-implies-nonempty invariant (C4) -/

lemma fbLoop_success_nonempty :
    ∀ (rem : List SelM) (all : List SelM) (i : Nat) (errs : List (Nat × JStr × JStr))
      (ru : List JStr) (tr : List Nat) (o : Outcome) (t : List Nat),
      fbLoop all rem i errs ru tr = some (o, t) → o.success = true →
      isEmpty o.data = false
  | [], all, i, errs, ru, tr, o, t, heq, hs => by
    match hl : all.getLast? with
    | none =>
      simp only [fbLoop, hl, Option.some.injEq, Prod.mk.injEq] at heq
      obtain ⟨ho, _⟩ := heq
      rw [← ho] at hs
      simp at hs
    | some lastSel =>
      match hexec : lastSel.exec with
      | none => simp [fbLoop, hl, hexec] at heq
      | some (.ok r) =>
        simp only [fbLoop, hl, hexec, Option.some.injEq, Prod.mk.injEq] at heq
        obtain ⟨ho, _⟩ := heq
        rw [← ho] at hs
        simp at hs
      | some (.error e) =>
        simp only [fbLoop, hl, hexec, Option.some.injEq, Prod.mk.injEq] at heq
        obtain ⟨ho, _⟩ := heq
        rw [← ho] at hs
        simp at hs
  | sel :: rest, all, i, errs, ru, tr, o, t, heq, hs => by
    match hexec : sel.exec with
    | none => simp [fbLoop, hexec] at heq
    | some (.error e) =>
      simp only [fbLoop, hexec] at heq
      exact fbLoop_success_nonempty rest all _ _ _ _ o t heq hs
    | some (.ok r) =>
      by_cases hg : (r.success && !isEmpty r.data) = true
      · simp only [fbLoop, hexec, hg, if_true, Option.some.injEq, Prod.mk.injEq] at heq
        obtain ⟨ho, _⟩ := heq
        rw [← ho]
        have hr : isEmpty r.data = false := by
          have := (Bool.and_eq_true _ _).mp hg
          simpa using this.2
        simpa using hr
      · have hg2 : (r.success && !isEmpty r.data) = false := by simpa using hg
        simp only [fbLoop, hexec, hg2, Bool.false_eq_true, if_false] at heq
        exact fbLoop_success_nonempty rest all _ _ _ _ o t heq hs

/-! ### Concatenation join characterization (C6) -/

lemma ccLoop_spec :
    ∀ (sels : List SelM) (i : Nat), (∀ s ∈ sels, s.exec ≠ none) →
      ccLoop true sels i =
        some (sels.filterMap concatContrib, ccErrsOf i sels, sels.map selRuleOr)
  | [], i, _ => by simp [ccLoop, ccErrsOf]
  | sel :: rest, i, h => by
    have ih := ccLoop_spec rest (i + 1) fun s hs => h s (List.mem_cons_of_mem _ hs)
    match hexec : sel.exec with
    | none => exact absurd hexec (h sel (List.mem_cons_self _ _))
    | some (.ok r) =>
      have hc : concatContrib sel =
          (if r.success && !isEmpty r.data then
            some (processDataForConcat r.data r) else none) := by
        simp [concatContrib, hexec]
      by_cases hg : (r.success && !isEmpty r.data) = true
      · simp only [ccLoop, hexec, ih, Option.map_some', List.filterMap_cons, hc, hg,
          if_pos, List.map_cons, ccErrsOf, if_true]
      · simp only [ccLoop, hexec, ih, Option.map_some', List.filterMap_cons, hc, hg,
          if_neg, List.map_cons, ccErrsOf, Bool.false_eq_true, if_false]
        simp [hg]
    | some (.error e) =>
      have hc : concatContrib sel = none := by simp [concatContrib, hexec]
      simp only [ccLoop, hexec, ih, Option.map_some', List.filterMap_cons, hc,
        List.map_cons, ccErrsOf]
      simp

lemma concatOperator_join (sels : List SelM) (h : ∀ s ∈ sels, s.exec ≠ none) :
    concatOperator [] true sels =
      some { success := !isEmpty (vStr (List.intercalate [] (sels.filterMap concatContrib))),
             data := vStr (List.intercalate [] (sels.filterMap concatContrib)),
             rule := List.intercalate (str " && ") (sels.map selRuleOr),
             selector := str "concat", errors := ccErrsOf 0 sels,
             processedCount := some (sels.filterMap concatContrib).length } := by
  rw [concatOperator, ccLoop_spec sels 0 h]
  rfl

theorem outcome_empty_success_cex :
    (textSelector (some [])).success = true ∧
    isEmpty (textSelector (some [])).data = true ∧
    (batchRegexCleanOperator replaceAllSub (vStr (str "1")) [(str "1", [])]).success = true ∧
    isEmpty (batchRegexCleanOperator replaceAllSub (vStr (str "1")) [(str "1", [])]).data = true :=
  ⟨rfl, rfl, rfl, rfl⟩

/-- C4 (amended): the success-implies-nonempty invariant holds for every
Outcome of `fallbackOperator`, `concatOperator` and the single-step
`regexCleanOperator`, and for `textSelector` on non-empty text; it fails for
`textSelector` on the empty literal and for `batchRegexCleanOperator`, which
reports success unconditionally. -/
theorem outcome_empty_success_invariant :
    (∀ (sels : List SelM) (o : Outcome) (tr : List Nat),
      fallbackOperator sels = some (o, tr) → o.success = true →
      isEmpty o.data = false) ∧
    (∀ (sep : JStr) (ie : Bool) (sels : List SelM) (o : Outcome),
      concatOperator sep ie sels = some o → o.success = true →
      isEmpty o.data = false) ∧
    (∀ (rep : RepFn) (input : JSValue) (p r : JStr),
      (regexCleanOperator rep input p r).success = true →
      isEmpty (regexCleanOperator rep input p r).data = false) ∧
    (∀ t : JStr, t ≠ [] →
      (textSelector (some t)).success = true ∧
      isEmpty (textSelector (some t)).data = false) ∧
    (∀ (rep : RepFn) (input : JSValue) (rules : List (JStr × JStr)),
      (batchRegexCleanOperator rep input rules).success = true) := by
  refine ⟨?_, ?_, ?_, ?_, ?_⟩
  · intro sels o tr heq hs
    exact fbLoop_success_nonempty sels sels 0 [] [] [] o tr heq hs
  · intro sep ie sels o heq hs
    rw [concatOperator] at heq
    match hcc : ccLoop ie sels 0 with
    | none => rw [hcc] at heq; simp at heq
    | some trip =>
      rw [hcc] at heq
      simp only [Option.map_some', Option.some.injEq] at heq
      rw [← heq] at hs ⊢
      simpa using hs
  · intro rep input p r hs
    simpa [regexCleanOperator, isEmpty] using hs
  · intro t ht
    exact ⟨rfl, by simpa [textSelector, isEmpty] using ht⟩
  · intro rep input rules
    rfl

theorem outcome_empty_success_invariant_witness :
    (textSelector (some (str "x"))).success = true ∧
    isEmpty (textSelector (some (str "x"))).data = false :=
  outcome_empty_success_invariant.2.2.2.1 (str "x") (by simp [str])

/-- C6: under the default configuration (empty separator, ignoreEmpty) the
concatenation operator joins, in order, exactly the stringified data of the
successful non-empty sub-rules (arrays contribute their first element,
objects their JSON serialization, text-selector strings stay untrimmed, all
other kinds are trimmed); with A failing, `A && B` yields exactly
stringify(B); success holds iff the joined string is non-empty. -/
theorem concat_default_join_spec :
    (∀ sels : List SelM, (∀ s ∈ sels, s.exec ≠ none) →
      ∃ o, concatOperator [] true sels = some o ∧
        o.data = vStr (List.intercalate [] (sels.filterMap concatContrib)) ∧
        (o.success = true ↔ List.intercalate [] (sels.filterMap concatContrib) ≠ [])) ∧
    (∀ (a b : SelM) (rb : Outcome), a.exec ≠ none → isHit a = false →
      b.exec = some (.ok rb) → rb.success = true → isEmpty rb.data = false →
      ∃ o, concatOperator [] true [a, b] = some o ∧
        o.data = vStr (processDataForConcat rb.data rb)) ∧
    (∀ (x : JSValue) (xs : List JSValue) (r : Outcome),
      processDataForConcat (vArr (x :: xs)) r =
        (if r.selector = str "text" then jsStringOf x else jsTrim (jsStringOf x))) ∧
    (∀ (fs : List (JStr × JSValue)) (r : Outcome),
      processDataForConcat (vObj fs) r = jsonStringify (vObj fs)) ∧
    (∀ (s : JStr) (r : Outcome), r.selector = str "text" →
      processDataForConcat (vStr s) r = s) ∧
    (∀ (s : JStr) (r : Outcome), r.selector ≠ str "text" →
      processDataForConcat (vStr s) r = jsTrim s) := by
  have hmain : ∀ sels : List SelM, (∀ s ∈ sels, s.exec ≠ none) →
      ∃ o, concatOperator [] true sels = some o ∧
        o.data = vStr (List.intercalate [] (sels.filterMap concatContrib)) ∧
        (o.success = true ↔ List.intercalate [] (sels.filterMap concatContrib) ≠ []) := by
    intro sels h
    refine ⟨_, concatOperator_join sels h, rfl, ?_⟩
    simp [isEmpty, List.isEmpty_iff]
  refine ⟨hmain, ?_, ?_, ?_, ?_, ?_⟩
  · intro a b rb ha hhita hexb hsb hneb
    have h2 : ∀ s ∈ [a, b], s.exec ≠ none := by
      intro s hs
      rcases List.mem_cons.mp hs with rfl | hs2
      · exact ha
      · rcases List.mem_cons.mp hs2 with rfl | hs3
        · simp [hexb]
        · simp at hs3
    obtain ⟨o, ho, hd, _⟩ := hmain [a, b] h2
    have hca : concatContrib a = none := by
      match hexa : a.exec with
      | none => exact absurd hexa ha
      | some (.ok r0) =>
        have : (r0.success && !isEmpty r0.data) = false := by
          simpa [isHit, hexa] using hhita
        simp [concatContrib, hexa, this]
      | some (.error e) => simp [concatContrib, hexa]
    have hcb : concatContrib b = some (processDataForConcat rb.data rb) := by
      simp [concatContrib, hexb, hsb, hneb]
    refine ⟨o, ho, ?_⟩
    rw [hd]
    simp [List.filterMap_cons, hca, hcb, List.intercalate]
  · intro x xs r
    rfl
  · intro fs r
    rfl
  · intro s r h
    simp [processDataForConcat, h]
  · intro s r h
    simp [processDataForConcat, h]

theorem concat_default_join_spec_witness :
    ∃ o, concatOperator [] true
        [⟨str "rA",
          some (.ok { success := false, data := vNull, rule := str "rA",
                      selector := str "css" })⟩,
         ⟨str "rB",
          some (.ok { success := true, data := vStr (str "B"), rule := str "rB",
                      selector := str "text" })⟩] = some o ∧
      o.data = vStr (str "B") := by
  have h := concat_default_join_spec.2.1
    ⟨str "rA",
     some (.ok { success := false, data := vNull, rule := str "rA",
                 selector := str "css" })⟩
    ⟨str "rB",
     some (.ok { success := true, data := vStr (str "B"), rule := str "rB",
                 selector := str "text" })⟩
    { success := true, data := vStr (str "B"), rule := str "rB",
      selector := str "text" }
    (by simp) rfl rfl rfl rfl
  simpa using h

/-! ### Trailing-space preservation (C7) and termination (C10) -/

lemma head?_dropWhile_not (p : Char → Bool) :
    ∀ (l : JStr) (c : Char), (l.dropWhile p).head? = some c → p c = false
  | [], c, h => by simp at h
  | x :: t, c, h => by
    by_cases hx : p x = true
    · rw [List.dropWhile_cons, if_pos hx] at h
      exact head?_dropWhile_not p t c h
    · rw [List.dropWhile_cons, if_neg hx] at h
      simp only [List.head?_cons, Option.some.injEq] at h
      rw [← h]
      simpa using hx

lemma dropTrailingWS_getLast? (l : JStr) (c : Char)
    (h : (dropTrailingWS l).getLast? = some c) : isSpaceJS c = false := by
  rw [dropTrailingWS, List.getLast?_reverse] at h
  exact head?_dropWhile_not isSpaceJS l.reverse c h

lemma ne_jsTrim_of_endsWithWS (seg : JStr) (h : endsWithWS seg = true) :
    seg ≠ jsTrim seg := by
  intro he
  rw [endsWithWS] at h
  match hl : seg.getLast? with
  | none => rw [hl] at h; simp at h
  | some c =>
    rw [hl] at h
    have hl2 : (jsTrim seg).getLast? = some c := by rw [← he]; exact hl
    have h2 := dropTrailingWS_getLast? (dropLeadingWS seg) c hl2
    simp only [h2] at h
    simp at h

/-- C7: a concatenation segment whose trimmed form starts with `@text:` and
whose raw form has trailing whitespace keeps that trailing whitespace — only
the leading whitespace is stripped; consequently the rule
`"@text:A && @text: -  && @text:B"` evaluates to `"A - B"`. -/
theorem concat_text_trailing_space_preserved :
    (∀ seg : JStr, jsStartsWith (str "@text:") (jsTrim seg) = true →
      endsWithWS seg = true → pushSegment seg = dropLeadingWS seg) ∧
    (parseConcatRule (str "@text:A && @text: -  && @text:B") =
      .ok [str "@text:A", str "@text: - ", str "@text:B"]) ∧
    (∃ o, parseRuleF 5 envT {} (vStr []) (str "@text:A && @text: -  && @text:B")
        (vObj []) = some (.ok o) ∧
      o.data = vStr (str "A - B") ∧ o.success = true) := by
  refine ⟨?_, rfl, ⟨_, rfl, rfl, rfl⟩⟩
  intro seg h1 h2
  unfold pushSegment
  rw [if_pos ⟨h1, ne_jsTrim_of_endsWithWS seg h2, h2⟩]

theorem concat_text_trailing_space_preserved_witness :
    pushSegment (str "@text:x ") = dropLeadingWS (str "@text:x ") :=
  concat_text_trailing_space_preserved.1 (str "@text:x ") (by decide) (by decide)

theorem parseRule_quoted_fallback_diverges_cex :
    ¬ ruleTerminates envT {} (vStr [])
      (str "@text:" ++ '\'' :: str "a||b" ++ ['\'']) (vObj []) := by
  rintro ⟨n, hn⟩
  suffices h : ∀ m, parseRuleF m envT {} (vStr [])
      (str "@text:" ++ '\'' :: str "a||b" ++ ['\'']) (vObj []) = none by
    rw [h n] at hn
    simp at hn
  intro m
  induction m with
  | zero => rfl
  | succ m ih =>
    have hne : (str "@text:" ++ '\'' :: str "a||b" ++ ['\'']).isEmpty = false := by decide
    have hia : jsIncludes (str "@text:" ++ '\'' :: str "a||b" ++ ['\'']) (str "||") =
        true := by decide
    have hsplit : parseFallbackRuleSplit (str "@text:" ++ '\'' :: str "a||b" ++ ['\'']) =
        [str "@text:" ++ '\'' :: str "a||b" ++ ['\'']] := by decide
    simp only [parseRuleF, hne, Bool.false_eq_true, if_false, hia, if_true, hsplit,
      engSelsOf, List.map_cons, List.map_nil, ih]
    rfl

/-- C10 (amended): `RuleEngine.parseRule` terminates (uniformly in the fuel)
on every rule containing neither `||` nor `&&`; but a rule whose only `||`
lies inside a quoted literal is returned unchanged as the single fallback
segment and `parseRule` recurses on itself forever (see the counterexample
above). -/
theorem parseRule_no_operator_terminates (env : REnv) (opts : EngOptions)
    (src : JSValue) (rule : JStr) (ctx : JSValue)
    (h1 : jsIncludes rule (str "||") = false)
    (h2 : jsIncludes rule (str "&&") = false) :
    ∀ n, parseRuleF (n + 1) env opts src rule ctx =
        parseRuleF 1 env opts src rule ctx ∧
      (parseRuleF (n + 1) env opts src rule ctx).isSome = true := by
  intro n
  have hsame : parseRuleF (n + 1) env opts src rule ctx =
      parseRuleF 1 env opts src rule ctx := by
    simp only [parseRuleF, h1, h2, Bool.false_eq_true, if_false]
  refine ⟨hsame, ?_⟩
  rw [hsame]
  simp only [parseRuleF, h1, h2, Bool.false_eq_true, if_false]
  split
  · simp
  · split <;> simp

theorem parseRule_no_operator_terminates_witness :
    parseRuleF 3 envT {} (vStr []) (str "@text:x") (vObj []) =
      parseRuleF 1 envT {} (vStr []) (str "@text:x") (vObj []) ∧
    (parseRuleF 3 envT {} (vStr []) (str "@text:x") (vObj [])).isSome = true :=
  parseRule_no_operator_terminates envT {} (vStr []) (str "@text:x") (vObj [])
    (by decide) (by decide) 2

/-! ### Cleanup chains (C3) -/

theorem ruleEngine_cleanup_single_replace_cex :
    (reParseCleanRule envT {} (vStr []) (str "@text:12##1##3##2##4") (vObj [])).toOption.map
        (fun o => o.data) = some (vStr (str "3##2##42")) ∧
    replaceAllSub (str "2") (str "4")
        (replaceAllSub (str "1") (str "3") (str "12")) = str "34" ∧
    str "3##2##42" ≠ str "34" :=
  ⟨rfl, rfl, by decide⟩

/-- C3 (amended): the facade engine's cleanup handler applies chained
`##p##r` pairs sequentially — `p1 → r1` on the selector value, then
`p2 → r2` on that intermediate output — via `batchRegexCleanOperator`; the
secondary `RuleEngine.parseCleanRule`, by contrast, performs a single
replace whose replacement is everything after the second `##` (see the
counterexample). -/
theorem bs_cleanup_chain_sequential (env : BSEnv) (opts : BSOptions)
    (src ctx : JSValue) (rule X p1 r1 p2 r2 : JStr) (sr : Outcome)
    (hsplit : jsSplit ['#', '#'] rule = [X, p1, r1, p2, r2])
    (hX : X.isEmpty = false)
    (hsel : bsHandleSingleSelector env opts X src ctx = .ok sr)
    (hsucc : sr.success = true) :
    bsHandleCleanRule env opts rule src ctx = .ok
      { batchRegexCleanOperator env.rep sr.data [(p1, r1), (p2, r2)] with
        rule := rule, originalData := some sr.data } ∧
    (batchRegexCleanOperator env.rep sr.data [(p1, r1), (p2, r2)]).data =
      vStr (cleanText env.rep (vStr (cleanText env.rep sr.data p1 r1)) p2 r2) := by
  constructor
  · unfold bsHandleCleanRule
    rw [hsplit]
    simp only [List.headD_cons, List.drop_succ_cons, List.drop_zero, cleanPairs, hX,
      Bool.false_eq_true, if_false, hsel, hsucc, not_true, List.length_cons,
      List.length_nil]
    simp [hsucc]
  · rfl

theorem bs_cleanup_chain_sequential_witness :
    bsHandleCleanRule envB {} (str "x##1##3##2##4") (vStr []) (vObj []) = .ok
      { batchRegexCleanOperator envB.rep (vStr (str "12")) [(str "1", str "3"), (str "2", str "4")] with
        rule := str "x##1##3##2##4",
        originalData := some (vStr (str "12")) } ∧
    (batchRegexCleanOperator envB.rep (vStr (str "12"))
        [(str "1", str "3"), (str "2", str "4")]).data =
      vStr (cleanText envB.rep (vStr (cleanText envB.rep (vStr (str "12")) (str "1") (str "3")))
        (str "2") (str "4")) := by
  exact bs_cleanup_chain_sequential envB {} (vStr []) (vObj []) (str "x##1##3##2##4")
    (str "x") (str "1") (str "3") (str "2") (str "4")
    { success := true, data := vStr (str "12"), rule := str "x", selector := str "css" }
    (by decide) (by decide) rfl rfl

/-! ### Facade error conversion (C8) -/

theorem facade_no_match_error_cex :
    (bsParseRule envNM {} ⟨[]⟩ 0 (str "x") (vStr []) (vObj [])).1.success = false ∧
    (bsParseRule envNM {} ⟨[]⟩ 0 (str "x") (vStr []) (vObj [])).1.error = none :=
  ⟨rfl, rfl⟩

/-- C8 (amended): the facade entry point never throws — an internal throw
(adapter or grammar error) is converted into an Outcome with `success =
false` and the thrown message in `error`; an internal Outcome (including a
no-match selector result, whose `error` field may be absent) is returned
as-is. -/
theorem facade_never_throws (env : BSEnv) (opts : BSOptions) (st : BSState)
    (now : Nat) (rule : JStr) (src ctx : JSValue)
    (hcache : opts.cache.enabled = false) (hrule : rule.isEmpty = false) :
    bsParseRule env opts st now rule src ctx =
      ((match bsExecuteRule env opts rule src ctx with
        | .ok o => o
        | .error e =>
          { success := false, data := vNull, rule := rule, selector := str "unknown",
            error := some e }), st) ∧
    (∀ e, bsExecuteRule env opts rule src ctx = .error e →
      (bsParseRule env opts st now rule src ctx).1.success = false ∧
      (bsParseRule env opts st now rule src ctx).1.error = some e) := by
  have hmain : bsParseRule env opts st now rule src ctx =
      ((match bsExecuteRule env opts rule src ctx with
        | .ok o => o
        | .error e =>
          { success := false, data := vNull, rule := rule, selector := str "unknown",
            error := some e }), st) := by
    rw [bsParseRule]
    simp only [hrule, Bool.false_eq_true, if_false, hcache]
    rw [bsCompute]
    match hex : bsExecuteRule env opts rule src ctx with
    | .ok o => simp [hcache]
    | .error e => rfl
  refine ⟨hmain, ?_⟩
  intro e he
  rw [hmain, he]
  exact ⟨rfl, rfl⟩

theorem facade_never_throws_witness :
    bsParseRule envNM {} ⟨[]⟩ 0 (str "y") (vStr []) (vObj []) =
      ((match bsExecuteRule envNM {} (str "y") (vStr []) (vObj []) with
        | .ok o => o
        | .error e =>
          { success := false, data := vNull, rule := str "y", selector := str "unknown",
            error := some e }), (⟨[]⟩ : BSState)) :=
  (facade_never_throws envNM {} ⟨[]⟩ 0 (str "y") (vStr []) (vObj []) rfl (by decide)).1

/-! ### Cache transparency (C9) -/

lemma mapGet_mem {m : List (JStr × Outcome × Nat)} {k : JStr} {v : Outcome × Nat}
    (h : mapGet m k = some v) : (k, v) ∈ m := by
  unfold mapGet at h
  match hf : m.find? (fun e => e.1 == k) with
  | none => rw [hf] at h; simp at h
  | some e =>
    rw [hf] at h
    simp only [Option.map_some', Option.some.injEq] at h
    have hmem := List.mem_of_find?_eq_some hf
    have hp := List.find?_some hf
    have hk : e.1 = k := by simpa using hp
    have : e = (k, v) := Prod.ext hk h
    rw [← this]
    exact hmem

lemma mem_mapSet {m : List (JStr × Outcome × Nat)} {k : JStr} {v : Outcome × Nat}
    {a : JStr × Outcome × Nat} (h : a ∈ mapSet m k v) : a = (k, v) ∨ a ∈ m := by
  unfold mapSet at h
  split at h
  · rw [List.mem_map] at h
    obtain ⟨e, he, hfe⟩ := h
    by_cases hk : (e.1 == k) = true
    · left
      rw [← hfe, if_pos hk]
    · right
      rw [← hfe, if_neg hk]
      exact he
  · rw [List.mem_append] at h
    rcases h with h | h
    · right; exact h
    · left; simpa using h

lemma cacheResultStep_faithful (env : BSEnv) (opts : BSOptions) (rule : JStr)
    (src ctx : JSValue) (st : BSState) (result : Outcome) (now : Nat)
    (hinv : cacheFaithful env opts rule src ctx st)
    (hres : result = bsFresh env opts rule src ctx) :
    cacheFaithful env opts rule src ctx
      (cacheResultStep opts st (generateCacheKey rule src ctx) result now) := by
  intro e he hk
  unfold cacheResultStep at he
  simp only at he
  rcases mem_mapSet he with rfl | hmem
  · simpa using hres
  · have hmem2 : e ∈ st.cache := by
      by_cases hlen : st.cache.length ≥ opts.cache.maxSize
      · rw [if_pos hlen] at hmem
        match hc : st.cache with
        | [] => rw [hc] at hmem; simp at hmem
        | e0 :: t =>
          rw [hc] at hmem
          have hmem2 : e ∈ mapDelete (e0 :: t) e0.1 := by simpa using hmem
          exact List.mem_of_mem_filter hmem2
      · rw [if_neg hlen] at hmem
        exact hmem
    exact hinv e hmem2 hk

lemma bsCompute_faithful (env : BSEnv) (opts : BSOptions) (rule : JStr)
    (src ctx : JSValue) (st : BSState) (now : Nat)
    (hre : rule.isEmpty = false)
    (hinv : cacheFaithful env opts rule src ctx st) :
    (bsCompute env opts st now rule src ctx (generateCacheKey rule src ctx)).1 =
      bsFresh env opts rule src ctx ∧
    cacheFaithful env opts rule src ctx
      (bsCompute env opts st now rule src ctx (generateCacheKey rule src ctx)).2 := by
  rw [bsCompute]
  match hex : bsExecuteRule env opts rule src ctx with
  | .ok o =>
    constructor
    · simp [bsFresh, hre, hex]
    · simp only
      by_cases hcs : opts.cache.enabled = true ∧ o.success = true
      · rw [if_pos hcs]
        exact cacheResultStep_faithful env opts rule src ctx st o now hinv
          (by simp [bsFresh, hre, hex])
      · rw [if_neg hcs]
        exact hinv
  | .error e =>
    constructor
    · simp [bsFresh, hre, hex]
    · exact hinv

lemma bsParseRule_faithful_step (env : BSEnv) (opts : BSOptions) (rule : JStr)
    (src ctx : JSValue) (st : BSState) (now : Nat)
    (hinv : cacheFaithful env opts rule src ctx st) :
    (bsParseRule env opts st now rule src ctx).1.data =
      (bsFresh env opts rule src ctx).data ∧
    cacheFaithful env opts rule src ctx (bsParseRule env opts st now rule src ctx).2 := by
  by_cases hre : rule.isEmpty = true
  · have heq : bsParseRule env opts st now rule src ctx =
        ({ success := false, data := vNull, rule := rule, selector := str "unknown",
           error := some (str "规则不能为空") }, st) := by
      simp [bsParseRule, hre]
    rw [heq]
    exact ⟨by simp [bsFresh, hre], hinv⟩
  · have hre2 : rule.isEmpty = false := by simpa using hre
    match hhit : (if opts.cache.enabled = true then
        mapGet st.cache (generateCacheKey rule src ctx) else none) with
    | some rt =>
      obtain ⟨res, ts⟩ := rt
      have hen : mapGet st.cache (generateCacheKey rule src ctx) = some (res, ts) := by
        by_cases hb : opts.cache.enabled = true
        · rw [if_pos hb] at hhit; exact hhit
        · rw [if_neg hb] at hhit; simp at hhit
      have hmem := mapGet_mem hen
      have hfr : res = bsFresh env opts rule src ctx := hinv _ hmem rfl
      by_cases hts : now - ts < opts.cache.ttl
      · have heq : bsParseRule env opts st now rule src ctx =
            ({ res with fromCache := true }, st) := by
          simp only [bsParseRule, hre2, Bool.false_eq_true, if_false, hhit, hts, if_true]
        rw [heq]
        exact ⟨by simp [hfr], hinv⟩
      · have heq : bsParseRule env opts st now rule src ctx =
            bsCompute env opts ⟨mapDelete st.cache (generateCacheKey rule src ctx)⟩
              now rule src ctx (generateCacheKey rule src ctx) := by
          simp only [bsParseRule, hre2, Bool.false_eq_true, if_false, hhit, hts]
        rw [heq]
        have hdel : cacheFaithful env opts rule src ctx
            ⟨mapDelete st.cache (generateCacheKey rule src ctx)⟩ := by
          intro e he hk
          exact hinv e (List.mem_of_mem_filter he) hk
        obtain ⟨h1, h2⟩ := bsCompute_faithful env opts rule src ctx
          ⟨mapDelete st.cache (generateCacheKey rule src ctx)⟩ now hre2 hdel
        exact ⟨by rw [h1], h2⟩
    | none =>
      have heq : bsParseRule env opts st now rule src ctx =
          bsCompute env opts st now rule src ctx (generateCacheKey rule src ctx) := by
        simp only [bsParseRule, hre2, Bool.false_eq_true, if_false, hhit]
      rw [heq]
      obtain ⟨h1, h2⟩ := bsCompute_faithful env opts rule src ctx st now hre2 hinv
      exact ⟨by rw [h1], h2⟩

lemma bsCallSeq_faithful (env : BSEnv) (opts : BSOptions) (rule : JStr)
    (src ctx : JSValue) :
    ∀ (times : List Nat) (st : BSState),
      cacheFaithful env opts rule src ctx st →
      ∀ o ∈ bsCallSeq env opts rule src ctx st times,
        o.data = (bsFresh env opts rule src ctx).data
  | [], st, _, o, ho => by simp [bsCallSeq] at ho
  | now :: rest, st, hinv, o, ho => by
    obtain ⟨h1, h2⟩ := bsParseRule_faithful_step env opts rule src ctx st now hinv
    rw [bsCallSeq] at ho
    rcases List.mem_cons.mp ho with rfl | ho2
    · exact h1
    · exact bsCallSeq_faithful env opts rule src ctx rest _ h2 o ho2

/-- C9 (amended): across any sequence of `parseRule` calls with one fixed
(rule, source, context) triple, every returned outcome carries the same
`data` as the cache-free computation — enabling the cache can only set
`fromCache`; but two *different* sources sharing the rule, the
100-character serialized-source prefix and the context collide on the cache
key, and the second call returns the first source's cached value (see the
counterexample). -/
theorem cache_same_triple_transparent (env : BSEnv) (opts : BSOptions) (rule : JStr)
    (src ctx : JSValue) (times : List Nat) :
    ∀ o ∈ bsCallSeq env opts rule src ctx ⟨[]⟩ times,
      o.data = (bsFresh env opts rule src ctx).data := by
  apply bsCallSeq_faithful
  intro e he hk
  simp at he

theorem cache_same_triple_transparent_witness :
    ((bsParseRule envId optsC9 ⟨[]⟩ 0 (str "r") srcA (vObj [])).1).data =
      (bsFresh envId optsC9 (str "r") srcA (vObj [])).data := by
  exact cache_same_triple_transparent envId optsC9 (str "r") srcA (vObj []) [0]
    _ (List.mem_cons_self _ _)

theorem cache_prefix_collision_cex :
    (bsParseRule envId optsC9
        (bsParseRule envId optsC9 ⟨[]⟩ 0 (str "r") srcA (vObj [])).2
        0 (str "r") srcB (vObj [])).1.data = srcA ∧
    (bsParseRule envId {} ⟨[]⟩ 0 (str "r") srcB (vObj [])).1.data = srcB ∧
    srcA ≠ srcB := by
  refine ⟨rfl, rfl, ?_⟩
  intro h
  rw [srcA, srcB] at h
  injection h with h2
  exact absurd h2 (by decide)
